import Mathlib

/-!
# Verification of the slinky daemon core

A shallow embedding, in Lean 4, of the slinky secret-file daemon's core
data structures and operations: the directory-scoped context manager
(`internal/context/context.go`), the encrypted TTL cache
(`internal/cache/cache.go`), the resolver with its cache-key fingerprint
and refresh deduplication (`internal/resolver`), and the template
renderer's `envDefault` builtin and static env-var extraction
(`internal/render`).

Go maps are modelled as association lists (`List (α × β)`); insertion
replaces all previous bindings of the key, deletion removes them, and
iteration over map keys — which Go performs in unspecified order, with the
source sorting keys wherever order matters — is modelled by iterating over
the deduplicated, sorted key list.  Go `nil` maps are distinguished from
empty maps with `Option` where the source distinguishes them.  Durations
and timestamps (`time.Duration`, `time.Time`) are modelled as `Int`
nanosecond counts; `time.Since(t)` becomes `now - t` for an explicit
`now` parameter.  Byte slices are modelled as `List Char` / `String`.
-/

namespace Slinky

/-! ## Association-list maps (Go `map[K]V`) -/

/-- Lookup in an association list: first binding wins (bindings are kept
unique by `insertA`/`eraseA`, mirroring a Go map). -/
def lookupA {α β : Type} [DecidableEq α] (k : α) : List (α × β) → Option β
  | [] => none
  | (k₁, v) :: rest => if k₁ = k then some v else lookupA k rest

/-- Go `delete(m, k)`: remove every binding of `k`. -/
def eraseA {α β : Type} [DecidableEq α] (k : α) (m : List (α × β)) : List (α × β) :=
  m.filter (fun p => p.1 ≠ k)

/-- Go `m[k] = v`: bind `k` to `v`, replacing any previous binding. -/
def insertA {α β : Type} [DecidableEq α] (k : α) (v : β) (m : List (α × β)) : List (α × β) :=
  (k, v) :: eraseA k m

/-- The keys of an association list, in representation order. -/
def keysA {α β : Type} (m : List (α × β)) : List α :=
  m.map Prod.fst

/-- Go `m[k] = true` on a `map[K]bool` used as a set. -/
def insertS {α : Type} [DecidableEq α] (a : α) (l : List α) : List α :=
  if a ∈ l then l else a :: l

/-- Go `delete(m, k)` on a `map[K]bool` used as a set. -/
def eraseS {α : Type} [DecidableEq α] (a : α) (l : List α) : List α :=
  l.filter (fun x => x ≠ a)

/-- Code-point-wise lexicographic comparison of char lists.  For UTF-8
strings this coincides with Go's byte-wise string order (UTF-8 encoding
preserves code-point order), and unlike the core `String` order its
decision procedure reduces in the kernel. -/
def charsLe : List Char → List Char → Bool
  | [], _ => true
  | _ :: _, [] => false
  | a :: as, b :: bs => if a = b then charsLe as bs else decide (a < b)

/-- Go string `<=` (byte-wise lexicographic). -/
def strLe (a b : String) : Bool := charsLe a.data b.data

theorem charsLe_total : ∀ a b : List Char, charsLe a b = true ∨ charsLe b a = true := by
  intro a
  induction a with
  | nil => intro b; left; rfl
  | cons x xs ih =>
    intro b
    cases b with
    | nil => right; rfl
    | cons y ys =>
      by_cases hxy : x = y
      · subst hxy
        rcases ih ys with h | h
        · left; simpa [charsLe] using h
        · right; simpa [charsLe] using h
      · rcases lt_or_gt_of_ne hxy with h | h
        · left; simp [charsLe, hxy, h]
        · right; simp [charsLe, Ne.symm hxy, h]

theorem charsLe_trans : ∀ a b c : List Char,
    charsLe a b = true → charsLe b c = true → charsLe a c = true := by
  intro a
  induction a with
  | nil => intro b c _ _; rfl
  | cons x xs ih =>
    intro b c h₁ h₂
    cases b with
    | nil => exact absurd h₁ (by simp [charsLe])
    | cons y ys =>
      cases c with
      | nil => exact absurd h₂ (by simp [charsLe])
      | cons z zs =>
        unfold charsLe at h₁ h₂ ⊢
        by_cases hxy : x = y
        · subst hxy
          rw [if_pos rfl] at h₁
          by_cases hyz : x = z
          · subst hyz
            rw [if_pos rfl] at h₂ ⊢
            exact ih ys zs h₁ h₂
          · rw [if_neg hyz] at h₂ ⊢
            exact h₂
        · rw [if_neg hxy] at h₁
          replace h₁ : x < y := of_decide_eq_true h₁
          by_cases hyz : y = z
          · subst hyz
            rw [if_neg hxy]
            exact decide_eq_true h₁
          · rw [if_neg hyz] at h₂
            replace h₂ : y < z := of_decide_eq_true h₂
            have hxz : x < z := lt_trans h₁ h₂
            rw [if_neg (ne_of_lt hxz)]
            exact decide_eq_true hxz

theorem charsLe_antisymm : ∀ a b : List Char,
    charsLe a b = true → charsLe b a = true → a = b := by
  intro a
  induction a with
  | nil =>
    intro b h₁ h₂
    cases b with
    | nil => rfl
    | cons y ys => exact absurd h₂ (by simp [charsLe])
  | cons x xs ih =>
    intro b h₁ h₂
    cases b with
    | nil => exact absurd h₁ (by simp [charsLe])
    | cons y ys =>
      unfold charsLe at h₁ h₂
      by_cases hxy : x = y
      · subst hxy
        rw [if_pos rfl] at h₁ h₂
        rw [ih ys h₁ h₂]
      · rw [if_neg hxy] at h₁
        rw [if_neg (Ne.symm hxy)] at h₂
        exact absurd (lt_trans (of_decide_eq_true h₁) (of_decide_eq_true h₂)) (lt_irrefl x)

instance strLeIsTotal : IsTotal String (fun a b => strLe a b = true) :=
  ⟨fun a b => charsLe_total a.data b.data⟩

instance strLeIsTrans : IsTrans String (fun a b => strLe a b = true) :=
  ⟨fun a b c => charsLe_trans a.data b.data c.data⟩

instance strLeIsAntisymm : IsAntisymm String (fun a b => strLe a b = true) :=
  ⟨fun a b h₁ h₂ => String.ext (charsLe_antisymm a.data b.data h₁ h₂)⟩

/-- Go `for k := range m` with keys sorted (`slices.Sorted(maps.Keys(m))`):
deduplicate, then sort. -/
def sortedKeys {β : Type} (m : List (String × β)) : List String :=
  (keysA m).dedup.insertionSort (fun a b => strLe a b = true)

/-- Go `slices.Sorted` over a `map[K]bool` set. -/
def sortedSet (l : List String) : List String :=
  l.dedup.insertionSort (fun a b => strLe a b = true)

theorem lookupA_eq_none {α β : Type} [DecidableEq α] (k : α) (m : List (α × β)) :
    lookupA k m = none ↔ k ∉ keysA m := by
  induction m with
  | nil => simp [lookupA, keysA]
  | cons p rest ih =>
    obtain ⟨k₁, v⟩ := p
    by_cases h : k₁ = k
    · subst h; simp [lookupA, keysA]
    · simp [lookupA, keysA, h, ih, Ne.symm h]

theorem lookupA_eraseA {α β : Type} [DecidableEq α] (k k₁ : α) (m : List (α × β))
    (h : k ≠ k₁) : lookupA k (eraseA k₁ m) = lookupA k m := by
  induction m with
  | nil => rfl
  | cons p rest ih =>
    obtain ⟨k₂, v⟩ := p
    by_cases h₂ : k₂ = k₁
    · subst h₂
      have hne : k₂ ≠ k := fun hc => h hc.symm
      have h1 : eraseA k₂ ((k₂, v) :: rest) = eraseA k₂ rest := by simp [eraseA]
      rw [h1, ih, lookupA, if_neg hne]
    · by_cases h₃ : k₂ = k
      · subst h₃; simp [eraseA, lookupA, h₂]
      · simp [eraseA, lookupA, h₂, h₃] at ih ⊢
        exact ih

theorem lookupA_eraseA_self {α β : Type} [DecidableEq α] (k : α) (m : List (α × β)) :
    lookupA k (eraseA k m) = none := by
  induction m with
  | nil => rfl
  | cons p rest ih =>
    obtain ⟨k₂, v⟩ := p
    by_cases h₂ : k₂ = k
    · subst h₂; simpa [eraseA, lookupA] using ih
    · simpa [eraseA, lookupA, h₂] using ih

theorem lookupA_insertA_self {α β : Type} [DecidableEq α] (k : α) (v : β)
    (m : List (α × β)) : lookupA k (insertA k v m) = some v := by
  simp [insertA, lookupA]

theorem lookupA_insertA_ne {α β : Type} [DecidableEq α] (k k₁ : α) (v : β)
    (m : List (α × β)) (h : k ≠ k₁) :
    lookupA k (insertA k₁ v m) = lookupA k m := by
  simp [insertA, lookupA, Ne.symm h, lookupA_eraseA k k₁ m h]

theorem mem_insertS {α : Type} [DecidableEq α] (a b : α) (l : List α) :
    b ∈ insertS a l ↔ b = a ∨ b ∈ l := by
  unfold insertS
  split
  · constructor
    · exact fun h => Or.inr h
    · rintro (rfl | h)
      · assumption
      · assumption
  · simp

theorem mem_eraseS {α : Type} [DecidableEq α] (a b : α) (l : List α) :
    b ∈ eraseS a l ↔ b ∈ l ∧ b ≠ a := by
  simp [eraseS]

theorem mem_sortedSet (a : String) (l : List String) :
    a ∈ sortedSet l ↔ a ∈ l := by
  unfold sortedSet
  rw [(l.dedup.perm_insertionSort (fun a b => strLe a b = true)).mem_iff]
  exact List.mem_dedup

theorem nodup_sortedSet (l : List String) : (sortedSet l).Nodup :=
  (l.dedup.perm_insertionSort (fun a b => strLe a b = true)).nodup_iff.mpr l.nodup_dedup

/-! ## Cache entries and TTL states (`internal/cache/cache.go`)

```go
type Entry struct {
    Ciphertext []byte
    CreatedAt  time.Time
    TTL        time.Duration
}
```
-/

structure Entry where
  ciphertext : List Nat
  createdAt : Int
  ttl : Int
deriving DecidableEq, Repr

namespace Entry

/-- `func (e *Entry) Fresh() bool { return time.Since(e.CreatedAt) < e.TTL }` -/
def Fresh (e : Entry) (now : Int) : Bool :=
  decide (now - e.createdAt < e.ttl)

/-- `age := time.Since(e.CreatedAt); return age >= e.TTL && age < 2*e.TTL` -/
def Stale (e : Entry) (now : Int) : Bool :=
  decide (e.ttl ≤ now - e.createdAt) && decide (now - e.createdAt < 2 * e.ttl)

/-- `return time.Since(e.CreatedAt) >= 2*e.TTL` -/
def Expired (e : Entry) (now : Int) : Bool :=
  decide (2 * e.ttl ≤ now - e.createdAt)

end Entry

/-! ## The `envDefault` template builtin (`internal/render/render.go`)

```go
funcMap["envDefault"] = func(key, fallback string) string {
    val, ok := envLookup(key)
    if ok && val != "" {
        return val
    }
    return fallback
}
```
-/

/-- `envLookup` is modelled as a function `String → Option String`
(`none` = variable unresolved). -/
def envDefault (envLookup : String → Option String) (key fallback : String) : String :=
  match envLookup key with
  | some val => if val ≠ "" then val else fallback
  | none => fallback

/-! ## Configuration data model (`internal/config`)

```go
type FileConfig struct {
    Render   string
    Template string
    Command  string
    Args     []string
    Mode     uint32
    TTL      Duration
    Symlink  string
    Name     string // populated from the map key during Load
}
```
-/

structure FileConfig where
  Render : String
  Template : String
  Command : String
  Args : List String
  Mode : Nat
  TTL : Int
  Symlink : String
  Name : String
deriving DecidableEq, Repr

/-- An environment map (`map[string]string`); `Option Env` distinguishes a
Go `nil` map from an empty one. -/
abbrev Env := List (String × String)

/-! ## Static env-var extraction (`internal/render/render.go`, extract part)

The `text/template` parse AST is embedded as an inductive type; only the
node shapes inspected by `walkNode`/`walkCommand` are distinguished, with
`textN` standing for every node kind the walker ignores.  A Go
`*parse.BranchNode` (`Pipe`, `List`, `ElseList`, the latter nilable)
appears inline in the `ifN`/`rangeN`/`withN` constructors.
-/

inductive TArg where
  | identifier (s : String)
  | stringLit (s : String)
  | otherArg
deriving DecidableEq, Repr

structure TCmd where
  args : List TArg
deriving DecidableEq, Repr

structure TPipe where
  cmds : List TCmd
deriving DecidableEq, Repr

inductive TNode where
  | listN (ns : List TNode)
  | action (p : TPipe)
  | ifN (pipe : TPipe) (body : TNode) (elseBody : Option TNode)
  | rangeN (pipe : TPipe) (body : TNode) (elseBody : Option TNode)
  | withN (pipe : TPipe) (body : TNode) (elseBody : Option TNode)
  | templateN (p : Option TPipe)
  | textN (s : String)
deriving Repr

/-- ```go
func walkCommand(cmd *parse.CommandNode, vars map[string]bool) {
    if len(cmd.Args) < 2 { return }
    ident, ok := cmd.Args[0].(*parse.IdentifierNode); if !ok { return }
    if ident.Ident != "env" && ident.Ident != "envDefault" { return }
    str, ok := cmd.Args[1].(*parse.StringNode); if !ok { return }
    vars[str.Text] = true
}
``` -/
def walkCommand (cmd : TCmd) (vars : List String) : List String :=
  match cmd.args with
  | a₀ :: a₁ :: _ =>
    match a₀ with
    | TArg.identifier id =>
      if id = "env" ∨ id = "envDefault" then
        match a₁ with
        | TArg.stringLit s => insertS s vars
        | _ => vars
      else vars
    | _ => vars
  | _ => vars

/-- `walkNode(pipe)`: a `PipeNode` walks each of its commands. -/
def walkPipe (p : TPipe) (vars : List String) : List String :=
  p.cmds.foldl (fun vs c => walkCommand c vs) vars

mutual

/-- `func walkNode(node parse.Node, vars map[string]bool)` — the `vars`
set threads through as an accumulator.  `walkBranch` (pipe, then list,
then else-list) is inlined at the three branch constructors. -/
def walkNode : TNode → List String → List String
  | TNode.listN ns, vars => walkNodeList ns vars
  | TNode.action p, vars => walkPipe p vars
  | TNode.ifN p b e, vars => walkNodeOpt e (walkNode b (walkPipe p vars))
  | TNode.rangeN p b e, vars => walkNodeOpt e (walkNode b (walkPipe p vars))
  | TNode.withN p b e, vars => walkNodeOpt e (walkNode b (walkPipe p vars))
  | TNode.templateN po, vars =>
    match po with
    | some p => walkPipe p vars
    | none => vars
  | TNode.textN _, vars => vars

def walkNodeList : List TNode → List String → List String
  | [], vars => vars
  | n :: rest, vars => walkNodeList rest (walkNode n vars)

def walkNodeOpt : Option TNode → List String → List String
  | some n, vars => walkNode n vars
  | none, vars => vars

end

/-- ```go
func ExtractEnvVars(cfg *config.FileConfig) map[string]bool
```
Returns `none` on command mode, empty template path, read failure or
parse failure.  File reading followed by parsing is abstracted by the
oracle `parseTemplate : FileConfig → Option TNode` (`none` = missing or
unparsable template); the walk over every defined sub-template tree is
represented by a single root node (a multi-template file is a `listN`). -/
def ExtractEnvVars (parseTemplate : FileConfig → Option TNode) (cfg : FileConfig) :
    Option (List String) :=
  if cfg.Render = "command" then none
  else if cfg.Template = "" then none
  else
    match parseTemplate cfg with
    | none => none
    | some t => some (walkNode t [])

/-- ```go
var cmdEnvAllowlist = map[string]bool{
    "HOME": true, "USER": true, "LOGNAME": true, "PATH": true,
    "SHELL": true, "TERM": true, "LANG": true,
}
``` -/
def cmdEnvAllowlist : List String :=
  ["HOME", "USER", "LOGNAME", "PATH", "SHELL", "TERM", "LANG"]

/-- ```go
func FilterEnv(cfg *config.FileConfig, env map[string]string) map[string]string
```
Returns `nil` for a `nil` env; for command-mode files keeps only the
allowlist keys; otherwise keeps only the statically extracted keys, or
the env unchanged when extraction returned `nil`. -/
def FilterEnv (parseTemplate : FileConfig → Option TNode) (cfg : FileConfig)
    (env : Option Env) : Option Env :=
  match env with
  | none => none
  | some e =>
    if cfg.Render = "command" then
      some (cmdEnvAllowlist.foldl
        (fun acc key =>
          match lookupA key e with
          | some v => insertA key v acc
          | none => acc) [])
    else
      match ExtractEnvVars parseTemplate cfg with
      | none => some e
      | some vars =>
        some (vars.foldl
          (fun acc key =>
            match lookupA key e with
            | some v => insertA key v acc
            | none => acc) [])

/-! ## Context manager (`internal/context/context.go`)

The manager's three maps.  `configNames` (only consumed by the
filesystem-walking `DiscoverLayers`) and the `onChange` callback are kept
out of the state: layer discovery plus `config.LoadProjectConfig` is
abstracted as the `disc` input of `Activate` (the successfully loaded
`(layer-dir, files)` list, shallowest-first), and callback invocation is
reported as the `onChangeFired` flag of each operation's result. -/

structure EffectiveFile where
  fileConfig : FileConfig
  Env : Option Env
deriving DecidableEq, Repr

structure Layer where
  Dir : String
  Files : List (String × FileConfig)
  Env : Option Env
deriving DecidableEq, Repr

structure Activation where
  Dir : String
  Layers : List Layer
  Env : Option Env
  overrides : List (String × EffectiveFile)
  sessions : List Int
deriving DecidableEq, Repr

structure Manager where
  globalFiles : List (String × FileConfig)
  activations : List (String × Activation)
  effective : List (String × EffectiveFile)
  pidToDirs : List (Int × List String)
deriving DecidableEq, Repr

/-- Result of a manager mutation: the new state, the Go return value
(`[]string, error` as `Except`), and whether the on-change callback was
invoked. -/
structure ActivateResult where
  m : Manager
  ret : Except String (List String)
  onChangeFired : Bool
deriving Repr

def isErr {α : Type} : Except String α → Bool
  | Except.error _ => true
  | Except.ok _ => false

def isOk {α : Type} : Except String α → Bool
  | Except.error _ => false
  | Except.ok _ => true

/-- Go's `%q` verb on a plain string (no escapes needed for the inputs
appearing in conflict messages). -/
def goQuote (s : String) : String := "\"" ++ s ++ "\""

/-- `effectiveNames` collects the keys of the effective map (Go map-key
order is unspecified; modelled sorted). -/
def effectiveNames (eff : List (String × EffectiveFile)) : List String :=
  sortedKeys eff

/-- The merged env for global files: `nil` when there is no activation,
otherwise the key-wise union of every activation's env in sorted dir
order (`maps.Copy`, last wins). -/
def mergedGlobalEnv (acts : List (String × Activation)) : Option Env :=
  if acts.isEmpty then none
  else
    some ((sortedKeys acts).foldl
      (fun acc d =>
        match lookupA d acts with
        | some act =>
          match act.Env with
          | some e => e.foldl (fun m kv => insertA kv.1 kv.2 m) acc
          | none => acc
        | none => acc) [])

/-- The per-activation half of `recompute`: apply activation `d`'s
overrides to `(owners, effective)`, failing on a name already owned by a
different activation.

```go
for name, ef := range act.overrides {
    if owner, claimed := owners[name]; claimed && owner != d {
        return nil, fmt.Errorf("conflict: file %q is defined by both %q and %q", name, owner, d)
    }
    owners[name] = d
    effective[name] = ef
}
``` -/
def applyOverrides (d : String) (ovs : List (String × EffectiveFile))
    (acc : List (String × String) × List (String × EffectiveFile)) :
    Except String (List (String × String) × List (String × EffectiveFile)) :=
  (sortedKeys ovs).foldlM
    (fun st name =>
      match lookupA name ovs with
      | none => pure st
      | some ef =>
        match lookupA name st.1 with
        | some owner =>
          if owner ≠ d then
            Except.error ("conflict: file " ++ goQuote name ++ " is defined by both "
              ++ goQuote owner ++ " and " ++ goQuote d)
          else
            pure (insertA name d st.1, insertA name ef st.2)
        | none => pure (insertA name d st.1, insertA name ef st.2))
    acc

/-- `filterEffectiveEnv`: narrow each effective entry's env through
`render.FilterEnv`. -/
def filterEffectiveEnv (parseTemplate : FileConfig → Option TNode)
    (eff : List (String × EffectiveFile)) : List (String × EffectiveFile) :=
  eff.map (fun p => (p.1, { p.2 with Env := FilterEnv parseTemplate p.2.fileConfig p.2.Env }))

/-- `func (m *Manager) recompute() (map[string]*EffectiveFile, error)`:
seed with global files carrying the merged env, then apply each
activation's overrides in sorted dir order with conflict detection, then
narrow envs. -/
def Manager.recompute (parseTemplate : FileConfig → Option TNode) (m : Manager) :
    Except String (List (String × EffectiveFile)) :=
  let globalEnv := mergedGlobalEnv m.activations
  let eff₀ := m.globalFiles.foldl
    (fun eff p => insertA p.1 ⟨p.2, globalEnv⟩ eff) []
  match (sortedKeys m.activations).foldlM
      (fun acc d =>
        match lookupA d m.activations with
        | some act => applyOverrides d act.overrides acc
        | none => pure acc)
      (([] : List (String × String)), eff₀) with
  | Except.error e => Except.error e
  | Except.ok st => Except.ok (filterEffectiveEnv parseTemplate st.2)

/-- `NewManager`: empty activation ledger, `m.effective, _ = m.recompute()`. -/
def NewManager (parseTemplate : FileConfig → Option TNode)
    (globalFiles : List (String × FileConfig)) : Manager :=
  let m : Manager := ⟨globalFiles, [], [], []⟩
  match m.recompute parseTemplate with
  | Except.ok eff => { m with effective := eff }
  | Except.error _ => m

/-- The overrides map built from the freshly loaded layers:
`overrides[name] = {fc, layer.Env}` for each layer in order. -/
def buildOverrides (layers : List Layer) : List (String × EffectiveFile) :=
  layers.foldl
    (fun ov layer =>
      (sortedKeys layer.Files).foldl
        (fun ov name =>
          match lookupA name layer.Files with
          | some fc => insertA name ⟨fc, layer.Env⟩ ov
          | none => ov) ov) []

/-- One iteration of the auto-deactivation loop inside `Activate`
(`for d := range m.pidToDirs[pid]`); the second component accumulates
`removedActivations`.

```go
if d == dir { continue }
act, ok := m.activations[d]
if !ok { delete(m.pidToDirs[pid], d); continue }
delete(act.sessions, pid)
delete(m.pidToDirs[pid], d)
if len(act.sessions) == 0 {
    removedActivations[d] = act
    delete(m.activations, d)
}
``` -/
def autoDeactStep (pid : Int) (dir : String)
    (acc : Manager × List (String × Activation)) (d : String) :
    Manager × List (String × Activation) :=
  if d = dir then acc
  else
    match lookupA d acc.1.activations with
    | none =>
      ({ acc.1 with
          pidToDirs := insertA pid (eraseS d ((lookupA pid acc.1.pidToDirs).getD []))
            acc.1.pidToDirs }, acc.2)
    | some act =>
      if (eraseS pid act.sessions).isEmpty then
        ({ acc.1 with
            activations := eraseA d acc.1.activations,
            pidToDirs := insertA pid (eraseS d ((lookupA pid acc.1.pidToDirs).getD []))
              acc.1.pidToDirs },
         insertA d { act with sessions := eraseS pid act.sessions } acc.2)
      else
        ({ acc.1 with
            activations := insertA d { act with sessions := eraseS pid act.sessions }
              acc.1.activations,
            pidToDirs := insertA pid (eraseS d ((lookupA pid acc.1.pidToDirs).getD []))
              acc.1.pidToDirs },
         acc.2)

/-- The auto-deactivation loop: iterate over (a snapshot of) the dirs the
session references.  Go deletes map entries while ranging, which never
revisits a deleted key; iterating the deduplicated sorted snapshot is
equivalent since each step deletes only its own key. -/
def Manager.autoDeact (pid : Int) (dir : String) (m : Manager) :
    Manager × List (String × Activation) :=
  if pid > 0 then
    (sortedSet ((lookupA pid m.pidToDirs).getD [])).foldl (autoDeactStep pid dir) (m, [])
  else (m, [])

/-- The rollback block of `Activate`, executed when `recompute` fails:
restore the previous activation for `dir`, re-install the
auto-deactivated activations, then undo the PID tracking for `dir`. -/
def Manager.activateRollback (dir : String) (old : Option Activation) (pid : Int)
    (removed : List (String × Activation)) (m : Manager) : Manager :=
  let r₁ :=
    match old with
    | some o => { m with activations := insertA dir o m.activations }
    | none => { m with activations := eraseA dir m.activations }
  let r₂ := (sortedKeys removed).foldl
    (fun st d =>
      match lookupA d removed with
      | some act =>
        { st with
          activations := insertA d { act with sessions := insertS pid act.sessions } st.activations,
          pidToDirs := insertA pid (insertS d ((lookupA pid st.pidToDirs).getD [])) st.pidToDirs }
      | none => st) r₁
  if decide (pid > 0) && (match old with | none => true | some o => decide (pid ∉ o.sessions)) then
    let dl := eraseS dir ((lookupA pid r₂.pidToDirs).getD [])
    if dl.isEmpty then { r₂ with pidToDirs := eraseA pid r₂.pidToDirs }
    else { r₂ with pidToDirs := insertA pid dl r₂.pidToDirs }
  else r₂

/-- The fresh `Activation` value built at the top of `Activate`: loaded
layers, captured env, derived overrides, and the session set copied from
any previous activation at `dir` plus `pid` when `pid > 0`. -/
def activationFor (disc : List (String × List (String × FileConfig)))
    (dir : String) (env : Option Env) (pid : Int) (m : Manager) : Activation :=
  { Dir := dir,
    Layers := disc.map (fun p => ⟨p.1, p.2, env⟩),
    Env := env,
    overrides := buildOverrides (disc.map (fun p => ⟨p.1, p.2, env⟩)),
    sessions :=
      if pid > 0 then
        insertS pid (match lookupA dir m.activations with
          | some o => o.sessions
          | none => [])
      else
        match lookupA dir m.activations with
        | some o => o.sessions
        | none => [] }

/-- The installation step of `Activate`: `m.activations[dir] = activation`
and, when `pid > 0`, the `pidToDirs` bookkeeping. -/
def Manager.activateInstall (dir : String) (pid : Int) (activation : Activation)
    (m : Manager) : Manager :=
  if pid > 0 then
    { m with
      activations := insertA dir activation m.activations,
      pidToDirs := insertA pid (insertS dir ((lookupA pid m.pidToDirs).getD [])) m.pidToDirs }
  else { m with activations := insertA dir activation m.activations }

/-- Everything `Activate` does before `recompute`: build and install the
activation, then run the auto-deactivation loop.  Second component:
`removedActivations`. -/
def Manager.activatePre (disc : List (String × List (String × FileConfig)))
    (dir : String) (env : Option Env) (pid : Int) (m : Manager) :
    Manager × List (String × Activation) :=
  (m.activateInstall dir pid (activationFor disc dir env pid m)).autoDeact pid dir

/-- `func (m *Manager) Activate(dir string, env map[string]string, pid int)
([]string, error)`.  `disc` is the output of
`DiscoverLayers` + `config.LoadProjectConfig` (pure filesystem reads):
the `(layer-dir, files)` pairs of the successfully loaded project
configs, shallowest-first. -/
def Manager.Activate (parseTemplate : FileConfig → Option TNode)
    (disc : List (String × List (String × FileConfig)))
    (dir : String) (env : Option Env) (pid : Int) (m : Manager) : ActivateResult :=
  match ((m.activatePre disc dir env pid).1).recompute parseTemplate with
  | Except.error err =>
    ⟨((m.activatePre disc dir env pid).1).activateRollback dir (lookupA dir m.activations)
        pid (m.activatePre disc dir env pid).2,
      Except.error err, false⟩
  | Except.ok eff =>
    ⟨{ (m.activatePre disc dir env pid).1 with effective := eff },
      Except.ok (effectiveNames eff), true⟩

/-- The removal tail of `Deactivate` (reached with `pid == 0` or when the
last session went away): clear each remaining session's `pidToDirs`
entry, drop the activation, recompute (its error is discarded:
`effective, _ := m.recompute()`), commit, fire on-change. -/
def Manager.deactivateRemove (parseTemplate : FileConfig → Option TNode)
    (dir : String) (act : Activation) (m : Manager) : ActivateResult :=
  let m₁ := (act.sessions.dedup.insertionSort (· ≤ ·)).foldl
    (fun st s =>
      let dl := eraseS dir ((lookupA s st.pidToDirs).getD [])
      if dl.isEmpty then { st with pidToDirs := eraseA s st.pidToDirs }
      else { st with pidToDirs := insertA s dl st.pidToDirs }) m
  let m₂ := { m₁ with activations := eraseA dir m₁.activations }
  match m₂.recompute parseTemplate with
  | Except.ok eff =>
    ⟨{ m₂ with effective := eff }, Except.ok (effectiveNames eff), true⟩
  | Except.error _ =>
    ⟨{ m₂ with effective := [] }, Except.ok (effectiveNames []), true⟩

/-- `func (m *Manager) Deactivate(dir string, pid int) ([]string, error)`.
With `pid > 0` only that session is removed and the activation persists
while sessions remain (no recompute, no on-change); `pid == 0`
force-removes. -/
def Manager.Deactivate (parseTemplate : FileConfig → Option TNode)
    (dir : String) (pid : Int) (m : Manager) : ActivateResult :=
  match lookupA dir m.activations with
  | none => ⟨m, Except.ok (effectiveNames m.effective), false⟩
  | some act =>
    if pid > 0 then
      let act₁ := { act with sessions := eraseS pid act.sessions }
      let m₁ := { m with activations := insertA dir act₁ m.activations }
      let dl := eraseS dir ((lookupA pid m₁.pidToDirs).getD [])
      let m₂ :=
        if dl.isEmpty then { m₁ with pidToDirs := eraseA pid m₁.pidToDirs }
        else { m₁ with pidToDirs := insertA pid dl m₁.pidToDirs }
      if act₁.sessions.isEmpty then m₂.deactivateRemove parseTemplate dir act₁
      else ⟨m₂, Except.ok (effectiveNames m₂.effective), false⟩
    else m.deactivateRemove parseTemplate dir act

/-! ## Secret cache (`internal/cache/cache.go`, SwapCipher variant)

The cipher is an abstract `{encrypt, decrypt, name}` trio (`Option`
models the error returns). -/

structure CacheCipher where
  encryptFn : List Nat → Option (List Nat)
  decryptFn : List Nat → Option (List Nat)
  cipherName : String

structure SecretCache where
  entries : List (String × Entry)
  cipher : CacheCipher

namespace SecretCache

/-- `func (sc *SecretCache) Get(key string) *Entry` -/
def Get (key : String) (sc : SecretCache) : Option Entry :=
  lookupA key sc.entries

/-- `func (sc *SecretCache) Put(key string, plaintext []byte, ttl time.Duration) error` -/
def Put (key : String) (plaintext : List Nat) (ttl now : Int) (sc : SecretCache) :
    Except String SecretCache :=
  match sc.cipher.encryptFn plaintext with
  | none => Except.error "encrypting cache entry"
  | some ciphertext =>
    Except.ok { sc with entries := insertA key ⟨ciphertext, now, ttl⟩ sc.entries }

/-- `clear(e.Ciphertext)` applied to every entry (`for _, e := range
sc.entries { clear(e.Ciphertext) }`): each buffer is overwritten with
zeros in place, its length preserved. -/
def zeroEntries (sc : SecretCache) : SecretCache :=
  { sc with
    entries := sc.entries.map
      (fun p => (p.1, { p.2 with ciphertext := List.replicate p.2.ciphertext.length 0 })) }

/-- ```go
func (sc *SecretCache) SwapCipher(c cipher.CacheCipher) {
    sc.mu.Lock(); defer sc.mu.Unlock()
    for _, e := range sc.entries { clear(e.Ciphertext) }
    sc.entries = make(map[string]*Entry)
    sc.cipher = c
}
```
The three statements in source order: zero every buffer, replace the map
with an empty one, then install the new cipher. -/
def SwapCipher (c : CacheCipher) (sc : SecretCache) : SecretCache :=
  let sc₁ := sc.zeroEntries
  let sc₂ := { sc₁ with entries := [] }
  { sc₂ with cipher := c }

end SecretCache

/-! ## Resolver (`internal/resolver/resolver.go` refresh-dedup variant)

`ResolverState` carries the ciphertext cache, the `refreshing` deduper
set, and — as observational concurrency state with no Go-struct
counterpart — `inflight`, the multiset of names whose spawned background
refresh goroutine has not yet finished.  `asyncRefresh` is split into
its synchronous half (the guarded spawn) and the goroutine's completion
(`finishRefresh`, which performs `renderAndCache` and runs the deferred
`delete(r.refreshing, name)`). -/

structure ResolverState where
  cache : List (String × Entry)
  refreshing : List String
  inflight : List String
deriving Repr

/-- ```go
func (r *SecretResolver) renderAndCache(...) ([]byte, error)
```
`render` is the oracle for `renderer.Render` (`none` = render error),
`encrypt` for the cache cipher.  A put failure is non-fatal: content is
returned and the cache is left unchanged. -/
def renderAndCache (render : Option (List Nat)) (encrypt : List Nat → Option (List Nat))
    (keyStr : String) (ttl now : Int) (cache : List (String × Entry)) :
    Option (List Nat) × List (String × Entry) :=
  match render with
  | none => (none, cache)
  | some content =>
    match encrypt content with
    | some ciphertext => (some content, insertA keyStr ⟨ciphertext, now, ttl⟩ cache)
    | none => (some content, cache)

/-- The synchronous half of `asyncRefresh`: under the mutex, return
without spawning when a refresh for `name` is already in flight,
otherwise set the flag and spawn the goroutine.  The `Bool` reports
whether a goroutine was spawned. -/
def asyncRefresh (name : String) (rs : ResolverState) : ResolverState × Bool :=
  if name ∈ rs.refreshing then (rs, false)
  else ({ rs with refreshing := insertS name rs.refreshing,
                  inflight := name :: rs.inflight }, true)

/-- The completion of one spawned refresh goroutine: perform
`renderAndCache`, then (deferred) `delete(r.refreshing, name)`; the
goroutine leaves the in-flight multiset. -/
def finishRefresh (name : String) (render : Option (List Nat))
    (encrypt : List Nat → Option (List Nat)) (keyStr : String) (ttl now : Int)
    (rs : ResolverState) : ResolverState :=
  let rc := renderAndCache render encrypt keyStr ttl now rs.cache
  { cache := rc.2,
    refreshing := eraseS name rs.refreshing,
    inflight := rs.inflight.erase name }

/-- At most one background refresh per name is in flight, and the
`refreshing` flag is set exactly for the in-flight names. -/
def RefreshInv (rs : ResolverState) : Prop :=
  ∀ n, rs.inflight.count n ≤ 1 ∧ (n ∈ rs.inflight ↔ n ∈ rs.refreshing)

structure ResolveResult where
  result : Option (List Nat)
  rs : ResolverState
  spawned : Bool
deriving Repr

/-- ```go
func (r *SecretResolver) Resolve(name string) ([]byte, error)
```
from the point where the file lookup and `ComputeCacheKey` have
succeeded (both are filesystem/config reads, passed in as `keyStr`):
fresh hit decrypts, stale hit decrypts and kicks off the async refresh,
miss renders synchronously.  `decrypt` is the cache cipher oracle
(`none` = decrypt error). -/
def Resolve (decrypt : List Nat → Option (List Nat)) (render : Option (List Nat))
    (encrypt : List Nat → Option (List Nat)) (keyStr name : String) (ttl now : Int)
    (rs : ResolverState) : ResolveResult :=
  match lookupA keyStr rs.cache with
  | some entry =>
    if entry.Fresh now then ⟨decrypt entry.ciphertext, rs, false⟩
    else if entry.Stale now then
      let ar := asyncRefresh name rs
      ⟨decrypt entry.ciphertext, ar.1, ar.2⟩
    else
      let rc := renderAndCache render encrypt keyStr ttl now rs.cache
      ⟨rc.1, { rs with cache := rc.2 }, false⟩
  | none =>
    let rc := renderAndCache render encrypt keyStr ttl now rs.cache
    ⟨rc.1, { rs with cache := rc.2 }, false⟩

/-! ## Cache key fingerprint (`internal/resolver/cachekey.go`)

The digest input is modelled at the byte level (`List Char`); `H`
abstracts `sha256` (the hasher is only ever applied to the accumulated
input, so every property of the input construction transfers to the real
digest, and equal inputs give equal digests for every `H`). -/

def nulChar : Char := Char.ofNat 0

/-- `strings.Join(parts, "\x00")` as bytes. -/
def joinNul : List String → List Char
  | [] => []
  | [p] => p.data
  | p :: rest => p.data ++ nulChar :: joinNul rest

/-- The domain separator `"\x00\x00slinky:env\x00\x00"`. -/
def envSep : List Char :=
  nulChar :: nulChar :: ("slinky:env".data ++ [nulChar, nulChar])

/-- One hashed env pair: `h.Write([]byte(k + "=" + env[k] + "\x00"))`. -/
def envPairBytes (e : Env) (k : String) : List Char :=
  k.data ++ '=' :: ((lookupA k e).getD "").data ++ [nulChar]

/-- The env contribution to the digest input: nothing when the env map is
empty, otherwise the separator followed by the sorted `K=V\0` pairs. -/
def envBlock (e : Env) : List Char :=
  if e.isEmpty then []
  else envSep ++ ((sortedKeys e).map (envPairBytes e)).flatten

/-- The full byte string fed to the hasher by `ComputeCacheKey`: template
file contents (read from disk — passed as `templateContents`, `none` =
read error) when `cfg.Template != ""`, else command and args joined by
NUL; then the env block. -/
def ComputeCacheKeyInput (cfg : FileConfig) (templateContents : Option (List Char))
    (env : Env) : Option (List Char) :=
  if cfg.Template ≠ "" then
    match templateContents with
    | none => none
    | some content => some (content ++ envBlock env)
  else
    some (joinNul (cfg.Command :: cfg.Args) ++ envBlock env)

structure CacheKey where
  Hash : List Nat
  FilePath : String
deriving DecidableEq, Repr

/-- Lowercase hex digit. -/
def hexDigit (n : Nat) : Char :=
  if n < 10 then Char.ofNat (48 + n) else Char.ofNat (87 + n)

/-- Two lowercase hex digits per byte, as printed by `%x`. -/
def hexByte (b : Nat) : List Char :=
  [hexDigit (b / 16 % 16), hexDigit (b % 16)]

/-- `func (k CacheKey) String() string { return fmt.Sprintf("%x:%s", k.Hash, k.FilePath) }` -/
def CacheKey.goString (k : CacheKey) : String :=
  ⟨(k.Hash.map hexByte).flatten ++ ':' :: k.FilePath.data⟩

/-- `func ComputeCacheKey(cfg *config.FileConfig, env map[string]string) (CacheKey, error)`
with the hasher `H` (`sha256`) abstract and the template file read passed
in as `templateContents`. -/
def ComputeCacheKey (H : List Char → List Nat) (cfg : FileConfig)
    (templateContents : Option (List Char)) (env : Env) : Option CacheKey :=
  (ComputeCacheKeyInput cfg templateContents env).map (fun input => ⟨H input, cfg.Name⟩)

/-! ## Serialization lemmas for the cache-key input -/

theorem splitAtChar (c : Char) (x₁ : List Char) : ∀ (x₂ t₁ t₂ : List Char), c ∉ x₁ → c ∉ x₂ →
    x₁ ++ c :: t₁ = x₂ ++ c :: t₂ → x₁ = x₂ ∧ t₁ = t₂ := by
  induction x₁ with
  | nil =>
    intro x₂ t₁ t₂ h₁ h₂ h
    cases x₂ with
    | nil => simpa using h
    | cons y ys =>
      rw [List.nil_append, List.cons_append] at h
      injection h with hc ht
      exact absurd (by rw [hc]; exact List.mem_cons_self y ys) h₂
  | cons a as ih =>
    intro x₂ t₁ t₂ h₁ h₂ h
    cases x₂ with
    | nil =>
      rw [List.cons_append, List.nil_append] at h
      injection h with hc ht
      exact absurd (by rw [← hc]; exact List.mem_cons_self a as) h₁
    | cons y ys =>
      rw [List.cons_append, List.cons_append] at h
      injection h with hhead htail
      have h₁' : c ∉ as := fun hc => h₁ (List.mem_cons_of_mem a hc)
      have h₂' : c ∉ ys := fun hc => h₂ (List.mem_cons_of_mem y hc)
      obtain ⟨hx, ht⟩ := ih ys t₁ t₂ h₁' h₂' htail
      exact ⟨by rw [hhead, hx], ht⟩

/-- Concatenating NUL-terminated chunks with NUL-free payloads is
injective in the payload list. -/
theorem chunksInj : ∀ (ps qs : List (List Char)),
    (∀ p ∈ ps, nulChar ∉ p) → (∀ q ∈ qs, nulChar ∉ q) →
    (ps.map (fun p => p ++ [nulChar])).flatten = (qs.map (fun q => q ++ [nulChar])).flatten →
    ps = qs := by
  intro ps
  induction ps with
  | nil =>
    intro qs _ _ h
    cases qs with
    | nil => rfl
    | cons q qs' => simp at h
  | cons p ps' ih =>
    intro qs hp hq h
    cases qs with
    | nil => simp at h
    | cons q qs' =>
      simp only [List.map_cons, List.flatten_cons, List.append_assoc,
        List.singleton_append] at h
      obtain ⟨hpq, ht⟩ := splitAtChar nulChar p _ _ _
        (hp p (List.mem_cons_self p ps')) (hq q (List.mem_cons_self q qs')) h
      have := ih qs' (fun x hx => hp x (List.mem_cons_of_mem p hx))
        (fun x hx => hq x (List.mem_cons_of_mem q hx)) ht
      rw [hpq, this]

/-- `strings.Join(·, "\x00")` is injective on nonempty lists of NUL-free
strings. -/
theorem joinNul_inj : ∀ (p₁ p₂ : List String),
    (∀ s ∈ p₁, nulChar ∉ s.data) → (∀ s ∈ p₂, nulChar ∉ s.data) →
    p₁ ≠ [] → p₂ ≠ [] → joinNul p₁ = joinNul p₂ → p₁ = p₂ := by
  intro p₁
  induction p₁ with
  | nil => intro p₂ _ _ hne _ _; exact absurd rfl hne
  | cons a as ih =>
    intro p₂ h₁ h₂ _ hne₂ h
    cases p₂ with
    | nil => exact absurd rfl hne₂
    | cons b bs =>
      cases as with
      | nil =>
        cases bs with
        | nil =>
          rw [show joinNul [a] = a.data from rfl, show joinNul [b] = b.data from rfl] at h
          rw [String.ext h]
        | cons b₂ bs' =>
          rw [show joinNul [a] = a.data from rfl,
            show joinNul (b :: b₂ :: bs') = b.data ++ nulChar :: joinNul (b₂ :: bs') from rfl] at h
          have : nulChar ∈ a.data := by
            rw [h]
            exact List.mem_append_right _ (List.mem_cons_self _ _)
          exact absurd this (h₁ a (List.mem_cons_self a []))
      | cons a₂ as' =>
        cases bs with
        | nil =>
          rw [show joinNul [b] = b.data from rfl,
            show joinNul (a :: a₂ :: as') = a.data ++ nulChar :: joinNul (a₂ :: as') from rfl] at h
          have : nulChar ∈ b.data := by
            rw [← h]
            exact List.mem_append_right _ (List.mem_cons_self _ _)
          exact absurd this (h₂ b (List.mem_cons_self b []))
        | cons b₂ bs' =>
          rw [show joinNul (a :: a₂ :: as') = a.data ++ nulChar :: joinNul (a₂ :: as') from rfl,
            show joinNul (b :: b₂ :: bs') = b.data ++ nulChar :: joinNul (b₂ :: bs') from rfl] at h
          obtain ⟨hab, ht⟩ := splitAtChar nulChar a.data _ _ _
            (h₁ a (List.mem_cons_self a _)) (h₂ b (List.mem_cons_self b _)) h
          have htl := ih (b₂ :: bs') (fun s hs => h₁ s (List.mem_cons_of_mem a hs))
            (fun s hs => h₂ s (List.mem_cons_of_mem b hs))
            (by simp) (by simp) ht
          rw [String.ext hab, htl]

/-- `lookupA` only returns stored bindings. -/
theorem lookupA_mem {α β : Type} [DecidableEq α] (k : α) (m : List (α × β)) (v : β)
    (h : lookupA k m = some v) : (k, v) ∈ m := by
  induction m with
  | nil => exact absurd h (by simp [lookupA])
  | cons p rest ih =>
    obtain ⟨k₁, v₁⟩ := p
    by_cases hk : k₁ = k
    · subst hk
      rw [lookupA, if_pos rfl] at h
      injection h with h
      rw [h]
      exact List.mem_cons_self _ _
    · rw [lookupA, if_neg hk] at h
      exact List.mem_cons_of_mem _ (ih h)

/-- Permutation of an env with duplicate-free keys preserves lookups. -/
theorem lookupA_perm {β : Type} (e₁ e₂ : List (String × β)) (hp : e₁.Perm e₂)
    (hn : (keysA e₁).Nodup) (k : String) : lookupA k e₁ = lookupA k e₂ := by
  induction hp with
  | nil => rfl
  | cons x h ih =>
    rename_i l₁ l₂
    obtain ⟨k₁, v₁⟩ := x
    have hn' : (keysA l₁).Nodup := by
      simp only [keysA, List.map_cons, List.nodup_cons] at hn
      exact hn.2
    by_cases hk : k₁ = k
    · subst hk
      simp [lookupA]
    · simp only [lookupA, hk, if_false]
      exact ih hn'
  | swap x y l =>
    obtain ⟨k₁, v₁⟩ := x
    obtain ⟨k₂, v₂⟩ := y
    have hne : k₂ ≠ k₁ := by
      simp only [keysA, List.map_cons, List.nodup_cons, List.mem_cons] at hn
      exact fun hc => hn.1 (Or.inl hc)
    by_cases h₂ : k₂ = k
    · subst h₂
      have h₁ : k₁ ≠ k₂ := fun hc => hne hc.symm
      simp [lookupA, h₁]
    · by_cases h₁ : k₁ = k
      · subst h₁
        simp [lookupA, h₂]
      · simp [lookupA, h₁, h₂]
  | trans h₁ h₂ ih₁ ih₂ =>
    rename_i l₁ l₂ l₃
    have hn₂ : (keysA l₂).Nodup := ((h₁.map Prod.fst).nodup_iff).mp hn
    rw [ih₁ hn, ih₂ hn₂]

/-- The NUL-free payload of one env pair: `k ++ "=" ++ env[k]`. -/
def envPayload (e : Env) (k : String) : List Char :=
  k.data ++ '=' :: ((lookupA k e).getD "").data

theorem envPairBytes_eq_payload (e : Env) (k : String) :
    envPairBytes e k = envPayload e k ++ [nulChar] := by
  simp [envPairBytes, envPayload]

theorem envPayload_nul_free (e : Env) (k : String)
    (hk : k ∈ keysA e → nulChar ∉ k.data) (hkk : nulChar ∉ k.data)
    (hv : ∀ p ∈ e, nulChar ∉ (Prod.snd p : String).data) :
    nulChar ∉ envPayload e k := by
  intro hmem
  rcases List.mem_append.mp hmem with h | h
  · exact hkk h
  · rcases List.mem_cons.mp h with h | h
    · exact absurd h (by decide)
    · cases hl : lookupA k e with
      | none => rw [hl] at h; exact absurd h (by simp)
      | some v =>
        rw [hl] at h
        exact hv (k, v) (lookupA_mem k e v hl) h

/-- Pointwise-equal payload lists force equal key lists and equal stored
values. -/
theorem payloadLists_inj (e₁ e₂ : Env) : ∀ (ks₁ ks₂ : List String),
    (∀ k ∈ ks₁, ('=' : Char) ∉ k.data) → (∀ k ∈ ks₂, ('=' : Char) ∉ k.data) →
    ks₁.map (envPayload e₁) = ks₂.map (envPayload e₂) →
    ks₁ = ks₂ ∧ ∀ k ∈ ks₁, (lookupA k e₁).getD "" = (lookupA k e₂).getD "" := by
  intro ks₁
  induction ks₁ with
  | nil =>
    intro ks₂ _ _ h
    cases ks₂ with
    | nil => exact ⟨rfl, by simp⟩
    | cons b bs => simp at h
  | cons a as ih =>
    intro ks₂ h₁ h₂ h
    cases ks₂ with
    | nil => simp at h
    | cons b bs =>
      simp only [List.map_cons, List.cons.injEq] at h
      have hsplit := splitAtChar '=' a.data b.data _ _
        (h₁ a (List.mem_cons_self a as)) (h₂ b (List.mem_cons_self b bs)) h.1
      have hab : a = b := String.ext hsplit.1
      have hv : (lookupA a e₁).getD "" = (lookupA a e₂).getD "" := by
        have := String.ext hsplit.2
        rw [hab] at this ⊢
        exact this
      obtain ⟨hks, hvs⟩ := ih bs (fun k hk => h₁ k (List.mem_cons_of_mem a hk))
        (fun k hk => h₂ k (List.mem_cons_of_mem b hk)) h.2
      refine ⟨by rw [hab, hks], fun k hk => ?_⟩
      rcases List.mem_cons.mp hk with rfl | hk
      · exact hv
      · exact hvs k hk

/-- Equal env blocks force equal lookups, provided keys are free of `=`
and NUL, values are free of NUL, and keys are duplicate-free (all true
of real process environments). -/
theorem envBlock_inj (e₁ e₂ : Env)
    (hn₁ : (keysA e₁).Nodup) (hn₂ : (keysA e₂).Nodup)
    (hk₁ : ∀ k ∈ keysA e₁, ('=' : Char) ∉ k.data ∧ nulChar ∉ k.data)
    (hk₂ : ∀ k ∈ keysA e₂, ('=' : Char) ∉ k.data ∧ nulChar ∉ k.data)
    (hv₁ : ∀ p ∈ e₁, nulChar ∉ (Prod.snd p : String).data)
    (hv₂ : ∀ p ∈ e₂, nulChar ∉ (Prod.snd p : String).data)
    (h : envBlock e₁ = envBlock e₂) : ∀ k, lookupA k e₁ = lookupA k e₂ := by
  by_cases he₁ : e₁.isEmpty
  · by_cases he₂ : e₂.isEmpty
    · intro k
      rw [List.isEmpty_iff.mp he₁, List.isEmpty_iff.mp he₂]
    · rw [envBlock, if_pos he₁, envBlock, if_neg he₂] at h
      exact absurd h (by simp [envSep])
  · by_cases he₂ : e₂.isEmpty
    · rw [envBlock, if_neg he₁, envBlock, if_pos he₂] at h
      exact absurd h (by simp [envSep])
    · rw [envBlock, if_neg he₁, envBlock, if_neg he₂] at h
      have hflat := List.append_cancel_left h
      have hmem₁ : ∀ k ∈ sortedKeys e₁, k ∈ keysA e₁ := fun k hk =>
        (mem_sortedSet k (keysA e₁)).mp hk
      have hmem₂ : ∀ k ∈ sortedKeys e₂, k ∈ keysA e₂ := fun k hk =>
        (mem_sortedSet k (keysA e₂)).mp hk
      have hre₁ : (sortedKeys e₁).map (envPairBytes e₁) =
          ((sortedKeys e₁).map (envPayload e₁)).map (fun p => p ++ [nulChar]) := by
        rw [List.map_map]
        exact List.map_congr_left (fun k _ => envPairBytes_eq_payload e₁ k)
      have hre₂ : (sortedKeys e₂).map (envPairBytes e₂) =
          ((sortedKeys e₂).map (envPayload e₂)).map (fun p => p ++ [nulChar]) := by
        rw [List.map_map]
        exact List.map_congr_left (fun k _ => envPairBytes_eq_payload e₂ k)
      rw [hre₁, hre₂] at hflat
      have hpl := chunksInj _ _
        (by
          intro p hp
          obtain ⟨k, hk, rfl⟩ := List.mem_map.mp hp
          exact envPayload_nul_free e₁ k (fun hm => (hk₁ k hm).2)
            ((hk₁ k (hmem₁ k hk)).2) hv₁)
        (by
          intro p hp
          obtain ⟨k, hk, rfl⟩ := List.mem_map.mp hp
          exact envPayload_nul_free e₂ k (fun hm => (hk₂ k hm).2)
            ((hk₂ k (hmem₂ k hk)).2) hv₂)
        hflat
      obtain ⟨hks, hvals⟩ := payloadLists_inj e₁ e₂ (sortedKeys e₁) (sortedKeys e₂)
        (fun k hk => (hk₁ k (hmem₁ k hk)).1) (fun k hk => (hk₂ k (hmem₂ k hk)).1) hpl
      intro k
      by_cases hk : k ∈ keysA e₁
      · have hks₁ : k ∈ sortedKeys e₁ := (mem_sortedSet k (keysA e₁)).mpr hk
        have hks₂ : k ∈ keysA e₂ := hmem₂ k (hks ▸ hks₁)
        have hval := hvals k hks₁
        cases hl₁ : lookupA k e₁ with
        | none => exact absurd ((lookupA_eq_none k e₁).mp hl₁) (by exact fun hc => hc hk)
        | some v₁ =>
          cases hl₂ : lookupA k e₂ with
          | none => exact absurd ((lookupA_eq_none k e₂).mp hl₂) (by exact fun hc => hc hks₂)
          | some v₂ =>
            rw [hl₁, hl₂] at hval
            simpa using hval
      · have hks₁ : k ∉ sortedKeys e₁ := fun hc => hk ((mem_sortedSet k (keysA e₁)).mp hc)
        have hks₂ : k ∉ keysA e₂ := fun hc => hks₁ (hks ▸ (mem_sortedSet k (keysA e₂)).mpr hc)
        rw [(lookupA_eq_none k e₁).mpr hk, (lookupA_eq_none k e₂).mpr hks₂]

/-- Sorting the deduplicated keys is permutation-invariant. -/
theorem sortedKeys_perm {β : Type} (e₁ e₂ : List (String × β)) (hp : e₁.Perm e₂) :
    sortedKeys e₁ = sortedKeys e₂ := by
  unfold sortedKeys
  have hperm : ((keysA e₁).dedup).Perm ((keysA e₂).dedup) := (hp.map Prod.fst).dedup
  exact List.eq_of_perm_of_sorted
    (((keysA e₁).dedup.perm_insertionSort (fun a b => strLe a b = true)).trans
      (hperm.trans
        (((keysA e₂).dedup.perm_insertionSort (fun a b => strLe a b = true)).symm)))
    (List.sorted_insertionSort (fun a b => strLe a b = true) ((keysA e₁).dedup))
    (List.sorted_insertionSort (fun a b => strLe a b = true) ((keysA e₂).dedup))

theorem envBlock_perm (e₁ e₂ : Env) (hp : e₁.Perm e₂) (hn : (keysA e₁).Nodup) :
    envBlock e₁ = envBlock e₂ := by
  have hemp : e₁.isEmpty = e₂.isEmpty := by
    cases e₁ with
    | nil => rw [← hp.nil_eq]
    | cons a l =>
      cases e₂ with
      | nil => exact absurd hp.eq_nil (by simp)
      | cons b m => rfl
  unfold envBlock
  rw [hemp, sortedKeys_perm e₁ e₂ hp]
  have hmap : List.map (envPairBytes e₁) (sortedKeys e₂) =
      List.map (envPairBytes e₂) (sortedKeys e₂) :=
    List.map_congr_left (fun k _ => by
      unfold envPairBytes
      rw [lookupA_perm e₁ e₂ hp hn k])
  rw [hmap]

/-! ## Further association-list lemmas -/

theorem lookupA_map_value {α β γ : Type} [DecidableEq α] (k : α) (f : β → γ)
    (m : List (α × β)) :
    lookupA k (m.map (fun p => (p.1, f p.2))) = (lookupA k m).map f := by
  induction m with
  | nil => rfl
  | cons p rest ih =>
    obtain ⟨k₁, v⟩ := p
    by_cases h : k₁ = k
    · subst h; simp [lookupA]
    · simp [lookupA, h, ih]

/-! # Claim theorems -/

/-- C3: for every cache entry with TTL T > 0 and age a, fresh ↔ a < T,
stale ↔ T ≤ a < 2T, expired ↔ a ≥ 2T, and at any age exactly one of the
three states holds. -/
theorem C3_ttl_states_partition (e : Entry) (now : Int) (hT : 0 < e.ttl) :
    (e.Fresh now = true ↔ now - e.createdAt < e.ttl) ∧
    (e.Stale now = true ↔ e.ttl ≤ now - e.createdAt ∧ now - e.createdAt < 2 * e.ttl) ∧
    (e.Expired now = true ↔ 2 * e.ttl ≤ now - e.createdAt) ∧
    ((e.Fresh now = true ∧ e.Stale now = false ∧ e.Expired now = false) ∨
     (e.Fresh now = false ∧ e.Stale now = true ∧ e.Expired now = false) ∨
     (e.Fresh now = false ∧ e.Stale now = false ∧ e.Expired now = true)) := by
  refine ⟨by simp [Entry.Fresh], by simp [Entry.Stale, Bool.and_eq_true], by simp [Entry.Expired], ?_⟩
  by_cases h₁ : now - e.createdAt < e.ttl
  · left
    simp only [Entry.Fresh, Entry.Stale, Entry.Expired, Bool.and_eq_false_iff,
      decide_eq_true_eq, decide_eq_false_iff_not, not_lt, not_le]
    omega
  · by_cases h₂ : now - e.createdAt < 2 * e.ttl
    · right; left
      simp only [Entry.Fresh, Entry.Stale, Entry.Expired, Bool.and_eq_true,
        decide_eq_true_eq, decide_eq_false_iff_not, not_lt, not_le]
      omega
    · right; right
      simp only [Entry.Fresh, Entry.Stale, Entry.Expired, Bool.and_eq_false_iff,
        decide_eq_true_eq, decide_eq_false_iff_not, not_lt, not_le]
      omega

theorem C3_ttl_states_partition_witness :
    (0 : Int) < 10 ∧
    ((⟨[], 0, 10⟩ : Entry).Fresh 3 = true ↔ (3 : Int) - 0 < 10) ∧
    ((⟨[], 0, 10⟩ : Entry).Stale 3 = true ↔ (10 : Int) ≤ 3 - 0 ∧ (3 : Int) - 0 < 2 * 10) ∧
    ((⟨[], 0, 10⟩ : Entry).Expired 3 = true ↔ (2 : Int) * 10 ≤ 3 - 0) ∧
    (((⟨[], 0, 10⟩ : Entry).Fresh 3 = true ∧ (⟨[], 0, 10⟩ : Entry).Stale 3 = false ∧
        (⟨[], 0, 10⟩ : Entry).Expired 3 = false) ∨
     ((⟨[], 0, 10⟩ : Entry).Fresh 3 = false ∧ (⟨[], 0, 10⟩ : Entry).Stale 3 = true ∧
        (⟨[], 0, 10⟩ : Entry).Expired 3 = false) ∨
     ((⟨[], 0, 10⟩ : Entry).Fresh 3 = false ∧ (⟨[], 0, 10⟩ : Entry).Stale 3 = false ∧
        (⟨[], 0, 10⟩ : Entry).Expired 3 = true)) :=
  ⟨by decide, C3_ttl_states_partition ⟨[], 0, 10⟩ 3 (by decide)⟩

/-- C7: `envDefault(KEY, fallback)` is a total function (the Go builtin
returns a plain `string`, so template execution can never fail on it);
it returns the resolved value exactly when KEY resolves to a non-empty
string and the fallback when KEY is unresolved or resolves to `""`. -/
theorem C7_envDefault_fallback (envLookup : String → Option String) (key fallback : String) :
    (∀ v, envLookup key = some v → v ≠ "" → envDefault envLookup key fallback = v) ∧
    (envLookup key = none → envDefault envLookup key fallback = fallback) ∧
    (envLookup key = some "" → envDefault envLookup key fallback = fallback) ∧
    (envDefault envLookup key fallback = fallback ∨
      ∃ v, envLookup key = some v ∧ v ≠ "" ∧ envDefault envLookup key fallback = v) := by
  refine ⟨fun v hv hne => ?_, fun h => ?_, fun h => ?_, ?_⟩
  · simp [envDefault, hv, hne]
  · simp [envDefault, h]
  · simp [envDefault, h]
  · cases hv : envLookup key with
    | none => left; simp [envDefault, hv]
    | some v =>
      by_cases hne : v = ""
      · left; simp [envDefault, hv, hne]
      · right; exact ⟨v, rfl, hne, by simp [envDefault, hv, hne]⟩

theorem C7_envDefault_fallback_witness :
    envDefault (fun k => if k = "TOKEN" then some "abc" else none) "TOKEN" "fb" = "abc" ∧
    envDefault (fun _ => none) "TOKEN" "fb" = "fb" ∧
    envDefault (fun _ => some "") "TOKEN" "fb" = "fb" :=
  ⟨(C7_envDefault_fallback (fun k => if k = "TOKEN" then some "abc" else none) "TOKEN" "fb").1
      "abc" (by decide) (by decide),
   (C7_envDefault_fallback (fun _ => none) "TOKEN" "fb").2.1 rfl,
   (C7_envDefault_fallback (fun _ => some "") "TOKEN" "fb").2.2.1 rfl⟩

/-- C6: after `SwapCipher(new)`, `Get(k)` finds nothing for any key —
in particular every key `Put` before the swap; the swap zeroes every
stored ciphertext buffer (in place, length preserved), replaces the
entry map with an empty one, and only then installs the new cipher. -/
theorem C6_swap_cipher_wipes (sc : SecretCache) (c : CacheCipher) :
    (∀ k, (sc.SwapCipher c).Get k = none) ∧
    (∀ k plaintext ttl now sc₁, sc.Put k plaintext ttl now = Except.ok sc₁ →
      (sc₁.SwapCipher c).Get k = none) ∧
    (sc.SwapCipher c).entries = [] ∧
    (sc.SwapCipher c).cipher = c ∧
    (∀ k e, lookupA k sc.entries = some e →
      lookupA k sc.zeroEntries.entries = some ⟨List.replicate e.ciphertext.length 0,
        e.createdAt, e.ttl⟩) := by
  refine ⟨fun k => rfl, fun k plaintext ttl now sc₁ _ => rfl, rfl, rfl, fun k e he => ?_⟩
  simp only [SecretCache.zeroEntries]
  have hm := lookupA_map_value k
    (fun e => (⟨List.replicate e.ciphertext.length 0, e.createdAt, e.ttl⟩ : Entry)) sc.entries
  rw [he] at hm
  exact hm

/-! ### Spec-side characterization of static env-var extraction

`nodeMentions t k` follows the spec's wording — "the set of literal
string keys passed as the first argument to `env` or `envDefault`" — as
a recursive predicate over the embedded AST, to be compared with the
walker implementation. -/

/-- The command passes the literal string `k` as first argument to `env`
or `envDefault`. -/
def cmdMentions (c : TCmd) (k : String) : Prop :=
  match c.args with
  | TArg.identifier id :: TArg.stringLit s :: _ => (id = "env" ∨ id = "envDefault") ∧ s = k
  | _ => False

def pipeMentions (p : TPipe) (k : String) : Prop :=
  ∃ c ∈ p.cmds, cmdMentions c k

mutual

def nodeMentions : TNode → String → Prop
  | TNode.listN ns, k => listMentions ns k
  | TNode.action p, k => pipeMentions p k
  | TNode.ifN p b e, k => pipeMentions p k ∨ nodeMentions b k ∨ optMentions e k
  | TNode.rangeN p b e, k => pipeMentions p k ∨ nodeMentions b k ∨ optMentions e k
  | TNode.withN p b e, k => pipeMentions p k ∨ nodeMentions b k ∨ optMentions e k
  | TNode.templateN po, k =>
    match po with
    | some p => pipeMentions p k
    | none => False
  | TNode.textN _, _ => False

def listMentions : List TNode → String → Prop
  | [], _ => False
  | n :: rest, k => nodeMentions n k ∨ listMentions rest k

def optMentions : Option TNode → String → Prop
  | some n, k => nodeMentions n k
  | none, _ => False

end

theorem mem_walkCommand (c : TCmd) (vars : List String) (k : String) :
    k ∈ walkCommand c vars ↔ cmdMentions c k ∨ k ∈ vars := by
  rcases c with ⟨args⟩
  match args with
  | [] => simp [walkCommand, cmdMentions]
  | [a₀] => simp [walkCommand, cmdMentions]
  | TArg.stringLit s :: a₁ :: rest => simp [walkCommand, cmdMentions]
  | TArg.otherArg :: a₁ :: rest => simp [walkCommand, cmdMentions]
  | TArg.identifier id :: TArg.identifier s :: rest => simp [walkCommand, cmdMentions]
  | TArg.identifier id :: TArg.otherArg :: rest => simp [walkCommand, cmdMentions]
  | TArg.identifier id :: TArg.stringLit s :: rest =>
    by_cases hid : id = "env" ∨ id = "envDefault"
    · simp only [walkCommand, cmdMentions, hid, if_true, true_and, mem_insertS]
      constructor
      · rintro (rfl | h)
        · exact Or.inl rfl
        · exact Or.inr h
      · rintro (rfl | h)
        · exact Or.inl rfl
        · exact Or.inr h
    · simp [walkCommand, cmdMentions, hid]

theorem mem_walkCmds (cmds : List TCmd) (vars : List String) (k : String) :
    k ∈ cmds.foldl (fun vs c => walkCommand c vs) vars ↔
      (∃ c ∈ cmds, cmdMentions c k) ∨ k ∈ vars := by
  induction cmds generalizing vars with
  | nil => simp
  | cons c rest ih =>
    rw [List.foldl_cons, ih, mem_walkCommand, List.exists_mem_cons_iff]
    constructor
    · rintro (h | h | h)
      · exact Or.inl (Or.inr h)
      · exact Or.inl (Or.inl h)
      · exact Or.inr h
    · rintro ((h | h) | h)
      · exact Or.inr (Or.inl h)
      · exact Or.inl h
      · exact Or.inr (Or.inr h)

theorem mem_walkPipe (p : TPipe) (vars : List String) (k : String) :
    k ∈ walkPipe p vars ↔ pipeMentions p k ∨ k ∈ vars :=
  mem_walkCmds p.cmds vars k

mutual

theorem mem_walkNode (t : TNode) (vars : List String) (k : String) :
    k ∈ walkNode t vars ↔ nodeMentions t k ∨ k ∈ vars := by
  match t with
  | TNode.listN ns =>
    rw [show walkNode (TNode.listN ns) vars = walkNodeList ns vars from rfl]
    exact mem_walkNodeList ns vars k
  | TNode.action p => exact mem_walkPipe p vars k
  | TNode.ifN p b e =>
    rw [show walkNode (TNode.ifN p b e) vars
          = walkNodeOpt e (walkNode b (walkPipe p vars)) from rfl,
      mem_walkNodeOpt e (walkNode b (walkPipe p vars)) k,
      mem_walkNode b (walkPipe p vars) k, mem_walkPipe p vars k]
    show _ ↔ nodeMentions (TNode.ifN p b e) k ∨ _
    rw [show nodeMentions (TNode.ifN p b e) k
          = (pipeMentions p k ∨ nodeMentions b k ∨ optMentions e k) from rfl]
    tauto
  | TNode.rangeN p b e =>
    rw [show walkNode (TNode.rangeN p b e) vars
          = walkNodeOpt e (walkNode b (walkPipe p vars)) from rfl,
      mem_walkNodeOpt e (walkNode b (walkPipe p vars)) k,
      mem_walkNode b (walkPipe p vars) k, mem_walkPipe p vars k]
    show _ ↔ nodeMentions (TNode.rangeN p b e) k ∨ _
    rw [show nodeMentions (TNode.rangeN p b e) k
          = (pipeMentions p k ∨ nodeMentions b k ∨ optMentions e k) from rfl]
    tauto
  | TNode.withN p b e =>
    rw [show walkNode (TNode.withN p b e) vars
          = walkNodeOpt e (walkNode b (walkPipe p vars)) from rfl,
      mem_walkNodeOpt e (walkNode b (walkPipe p vars)) k,
      mem_walkNode b (walkPipe p vars) k, mem_walkPipe p vars k]
    show _ ↔ nodeMentions (TNode.withN p b e) k ∨ _
    rw [show nodeMentions (TNode.withN p b e) k
          = (pipeMentions p k ∨ nodeMentions b k ∨ optMentions e k) from rfl]
    tauto
  | TNode.templateN po =>
    match po with
    | some p => exact mem_walkPipe p vars k
    | none => simp [walkNode, nodeMentions]
  | TNode.textN s => simp [walkNode, nodeMentions]

theorem mem_walkNodeList (ns : List TNode) (vars : List String) (k : String) :
    k ∈ walkNodeList ns vars ↔ listMentions ns k ∨ k ∈ vars := by
  match ns with
  | [] => simp [walkNodeList, listMentions]
  | n :: rest =>
    rw [show walkNodeList (n :: rest) vars = walkNodeList rest (walkNode n vars) from rfl,
      mem_walkNodeList rest (walkNode n vars) k, mem_walkNode n vars k,
      show listMentions (n :: rest) k = (nodeMentions n k ∨ listMentions rest k) from rfl]
    tauto

theorem mem_walkNodeOpt (e : Option TNode) (vars : List String) (k : String) :
    k ∈ walkNodeOpt e vars ↔ optMentions e k ∨ k ∈ vars := by
  match e with
  | some n => exact mem_walkNode n vars k
  | none => simp [walkNodeOpt, optMentions]

end

/-- The env-narrowing fold of `FilterEnv`: the filtered map binds `k`
iff `k` is among the retained keys and present in the env. -/
theorem lookupA_filterFold (keys : List String) (e : Env) (k : String) (acc : Env) :
    lookupA k (keys.foldl
      (fun acc key =>
        match lookupA key e with
        | some v => insertA key v acc
        | none => acc) acc) =
    if k ∈ keys ∧ (lookupA k e).isSome then lookupA k e else lookupA k acc := by
  induction keys generalizing acc with
  | nil => simp
  | cons key rest ih =>
    rw [List.foldl_cons, ih]
    by_cases hmem : k ∈ rest ∧ (lookupA k e).isSome
    · rw [if_pos hmem, if_pos ⟨List.mem_cons_of_mem key hmem.1, hmem.2⟩]
    · rw [if_neg hmem]
      by_cases hk : k = key
      · subst hk
        cases hv : lookupA k e with
        | none => simp [hv]
        | some v =>
          rw [if_pos ⟨List.mem_cons_self k rest, rfl⟩]
          exact lookupA_insertA_self k v acc
      · cases hv : lookupA key e with
        | none =>
          rw [if_neg]
          intro hc
          rcases List.mem_cons.mp hc.1 with h | h
          · exact hk h
          · exact hmem ⟨h, hc.2⟩
        | some v =>
          rw [lookupA_insertA_ne k key v acc hk, if_neg]
          intro hc
          rcases List.mem_cons.mp hc.1 with h | h
          · exact hk h
          · exact hmem ⟨h, hc.2⟩

/-- C5 (as written) fails: the digest input serializes env pairs as
`K=V\0` and command/args NUL-joined, so distinct envs — and distinct
argument lists — can hash identically.  With `{a: b=c}` versus
`{a=b: c}` both env blocks are the bytes `a=b=c\0`, and args
`["x", "y"]` versus `["x\0y"]` join to the same bytes, so
`ComputeCacheKey` returns equal keys for every hasher (here
`H = bytes`), refuting "the digest changes whenever any env key or
value changes" and "whenever the command plus argument list changes". -/
theorem C5_fingerprint_counterexample :
    ComputeCacheKey (fun l => l.map Char.toNat)
        (FileConfig.mk "command" "" "cmd" [] 0 0 "" "f") none [("a", "b=c")] =
      ComputeCacheKey (fun l => l.map Char.toNat)
        (FileConfig.mk "command" "" "cmd" [] 0 0 "" "f") none [("a=b", "c")] ∧
    lookupA "a" ([("a", "b=c")] : Env) = some "b=c" ∧
    lookupA "a" ([("a=b", "c")] : Env) = none ∧
    ([("a", "b=c")] : Env) ≠ [("a=b", "c")] ∧
    ComputeCacheKey (fun l => l.map Char.toNat)
        (FileConfig.mk "command" "" "cmd" ["x", "y"] 0 0 "" "f") none [] =
      ComputeCacheKey (fun l => l.map Char.toNat)
        (FileConfig.mk "command" "" "cmd" ["x\x00y"] 0 0 "" "f") none [] ∧
    (["x", "y"] : List String) ≠ ["x\x00y"] := by
  refine ⟨?_, by decide, by decide, by decide, ?_, by decide⟩ <;> decide

/-- C5 (amended): `ComputeCacheKey` is invariant under env iteration
order (permutations of a duplicate-free env map); the hashed byte string
changes whenever the template contents change (env fixed), whenever the
command and argument list changes provided no component contains NUL,
and whenever any env binding changes provided keys contain no `=` or NUL
and values no NUL; and the string key pairs the digest (hex-encoded,
`%x`) with the logical name separated by `:`. -/
theorem C5_fingerprint_properties :
    (∀ (H : List Char → List Nat) cfg tc (e₁ e₂ : Env), e₁.Perm e₂ → (keysA e₁).Nodup →
      ComputeCacheKey H cfg tc e₁ = ComputeCacheKey H cfg tc e₂) ∧
    (∀ cfg (e : Env) c₁ c₂, cfg.Template ≠ "" → c₁ ≠ c₂ →
      ComputeCacheKeyInput cfg (some c₁) e ≠ ComputeCacheKeyInput cfg (some c₂) e) ∧
    (∀ cfg₁ cfg₂ tc (e : Env), cfg₁.Template = "" → cfg₂.Template = "" →
      (∀ s ∈ cfg₁.Command :: cfg₁.Args, nulChar ∉ s.data) →
      (∀ s ∈ cfg₂.Command :: cfg₂.Args, nulChar ∉ s.data) →
      cfg₁.Command :: cfg₁.Args ≠ cfg₂.Command :: cfg₂.Args →
      ComputeCacheKeyInput cfg₁ tc e ≠ ComputeCacheKeyInput cfg₂ tc e) ∧
    (∀ cfg tc (e₁ e₂ : Env) i₁ i₂, ComputeCacheKeyInput cfg tc e₁ = some i₁ →
      ComputeCacheKeyInput cfg tc e₂ = some i₂ → i₁ = i₂ → envBlock e₁ = envBlock e₂) ∧
    (∀ e₁ e₂ : Env, (keysA e₁).Nodup → (keysA e₂).Nodup →
      (∀ k ∈ keysA e₁, ('=' : Char) ∉ k.data ∧ nulChar ∉ k.data) →
      (∀ k ∈ keysA e₂, ('=' : Char) ∉ k.data ∧ nulChar ∉ k.data) →
      (∀ p ∈ e₁, nulChar ∉ (Prod.snd p : String).data) →
      (∀ p ∈ e₂, nulChar ∉ (Prod.snd p : String).data) →
      envBlock e₁ = envBlock e₂ → ∀ k, lookupA k e₁ = lookupA k e₂) ∧
    (∀ (H : List Char → List Nat) cfg tc (e : Env) key,
      ComputeCacheKey H cfg tc e = some key →
      key.FilePath = cfg.Name ∧
        ∃ input, ComputeCacheKeyInput cfg tc e = some input ∧ key.Hash = H input) ∧
    CacheKey.goString ⟨[171, 0, 255], "netrc"⟩ = "ab00ff:netrc" := by
  refine ⟨?_, ?_, ?_, ?_, envBlock_inj, ?_, by decide⟩
  · intro H cfg tc e₁ e₂ hp hn
    have hb : envBlock e₁ = envBlock e₂ := envBlock_perm e₁ e₂ hp hn
    unfold ComputeCacheKey ComputeCacheKeyInput
    rw [hb]
  · intro cfg e c₁ c₂ htpl hne
    simp only [ComputeCacheKeyInput, if_pos htpl]
    intro h
    injection h with h
    exact hne (List.append_cancel_right h)
  · intro cfg₁ cfg₂ tc e h₁ h₂ hnul₁ hnul₂ hne
    unfold ComputeCacheKeyInput
    rw [if_neg (by simpa using h₁), if_neg (by simpa using h₂)]
    intro h
    injection h with h
    exact hne (joinNul_inj _ _ hnul₁ hnul₂ (by simp) (by simp)
      (List.append_cancel_right h))
  · intro cfg tc e₁ e₂ i₁ i₂ hi₁ hi₂ heq
    unfold ComputeCacheKeyInput at hi₁ hi₂
    by_cases htpl : cfg.Template ≠ ""
    · rw [if_pos htpl] at hi₁ hi₂
      cases tc with
      | none => exact absurd hi₁ (by simp)
      | some c =>
        injection hi₁ with hi₁
        injection hi₂ with hi₂
        rw [← hi₁, ← hi₂] at heq
        exact List.append_cancel_left heq
    · rw [if_neg htpl] at hi₁ hi₂
      injection hi₁ with hi₁
      injection hi₂ with hi₂
      rw [← hi₁, ← hi₂] at heq
      exact List.append_cancel_left heq
  · intro H cfg tc e key hk
    unfold ComputeCacheKey at hk
    cases hi : ComputeCacheKeyInput cfg tc e with
    | none => rw [hi] at hk; exact absurd hk (by simp)
    | some input =>
      rw [hi] at hk
      injection hk with hk
      exact ⟨by rw [← hk], input, rfl, by rw [← hk]⟩

theorem C5_fingerprint_properties_witness :
    ([("A", "1"), ("B", "2")] : Env).Perm [("B", "2"), ("A", "1")] ∧
    (keysA ([("A", "1"), ("B", "2")] : Env)).Nodup ∧
    ComputeCacheKey (fun l => l.map Char.toNat)
        (FileConfig.mk "native" "t" "" [] 0 0 "" "f") (some "c".data)
        [("A", "1"), ("B", "2")] =
      ComputeCacheKey (fun l => l.map Char.toNat)
        (FileConfig.mk "native" "t" "" [] 0 0 "" "f") (some "c".data)
        [("B", "2"), ("A", "1")] ∧
    ComputeCacheKeyInput (FileConfig.mk "native" "t" "" [] 0 0 "" "f")
        (some "a".data) [] ≠
      ComputeCacheKeyInput (FileConfig.mk "native" "t" "" [] 0 0 "" "f")
        (some "b".data) [] ∧
    ComputeCacheKeyInput (FileConfig.mk "command" "" "cmdA" [] 0 0 "" "f") none [] ≠
      ComputeCacheKeyInput (FileConfig.mk "command" "" "cmdB" [] 0 0 "" "f") none [] ∧
    envBlock ([("A", "1")] : Env) = envBlock ([("A", "1")] : Env) ∧
    lookupA "A" ([("A", "1")] : Env) = lookupA "A" ([("A", "1")] : Env) ∧
    (∃ input, ComputeCacheKeyInput (FileConfig.mk "command" "" "cmdA" [] 0 0 "" "f")
      none [] = some input) := by
  have h₁ := (C5_fingerprint_properties).1 (fun l => l.map Char.toNat)
    (FileConfig.mk "native" "t" "" [] 0 0 "" "f") (some "c".data)
    [("A", "1"), ("B", "2")] [("B", "2"), ("A", "1")]
    (List.Perm.swap ("B", "2") ("A", "1") []) (by decide)
  have h₂ := (C5_fingerprint_properties).2.1 (FileConfig.mk "native" "t" "" [] 0 0 "" "f")
    [] "a".data "b".data (by decide) (by decide)
  have h₃ := (C5_fingerprint_properties).2.2.1
    (FileConfig.mk "command" "" "cmdA" [] 0 0 "" "f")
    (FileConfig.mk "command" "" "cmdB" [] 0 0 "" "f") none []
    rfl rfl (by decide) (by decide) (by decide)
  have h₄ := (C5_fingerprint_properties).2.2.2.2.1 [("A", "1")] [("A", "1")]
    (by decide) (by decide) (by decide) (by decide) (by decide) (by decide) rfl "A"
  have h₅ := (C5_fingerprint_properties).2.2.2.2.2.1 (fun l => l.map Char.toNat)
    (FileConfig.mk "command" "" "cmdA" [] 0 0 "" "f") none [] _ rfl
  exact ⟨List.Perm.swap ("B", "2") ("A", "1") [], by decide, h₁, h₂, h₃, rfl, h₄,
    h₅.2.elim (fun i hi => ⟨i, hi.1⟩)⟩

/-- C8: env narrowing.  For a non-nil env: command-mode files keep
exactly the allowlist keys present in the env; native-mode files keep
exactly the extracted keys present in the env, where extraction yields
precisely the literal string keys passed as first argument to `env` or
`envDefault` somewhere in the AST; a failed extraction (command mode,
missing or unparsable template) leaves the env unchanged; a nil env
stays nil; and the piped form `{{ "K" | env }}` is not detected. -/
theorem C8_filter_env_narrowing (parseTemplate : FileConfig → Option TNode)
    (cfg : FileConfig) (e : Env) :
    (cfg.Render = "command" → ∀ k,
      (FilterEnv parseTemplate cfg (some e)).map (lookupA k) =
        some (if k ∈ cmdEnvAllowlist ∧ (lookupA k e).isSome then lookupA k e else none)) ∧
    (∀ vars, cfg.Render ≠ "command" → ExtractEnvVars parseTemplate cfg = some vars → ∀ k,
      (FilterEnv parseTemplate cfg (some e)).map (lookupA k) =
        some (if k ∈ vars ∧ (lookupA k e).isSome then lookupA k e else none)) ∧
    (cfg.Render ≠ "command" → ExtractEnvVars parseTemplate cfg = none →
      FilterEnv parseTemplate cfg (some e) = some e) ∧
    FilterEnv parseTemplate cfg none = none ∧
    (∀ t k, cfg.Render ≠ "command" → cfg.Template ≠ "" → parseTemplate cfg = some t →
      ExtractEnvVars parseTemplate cfg = some (walkNode t []) ∧
      (k ∈ walkNode t [] ↔ nodeMentions t k)) ∧
    walkNode (TNode.action ⟨[⟨[TArg.stringLit "K"]⟩, ⟨[TArg.identifier "env"]⟩]⟩) [] = [] := by
  refine ⟨?_, ?_, ?_, rfl, ?_, ?_⟩
  · intro hcmd k
    simp only [FilterEnv, if_pos hcmd, Option.map_some']
    rw [lookupA_filterFold cmdEnvAllowlist e k []]
    rfl
  · intro vars hnc hext k
    simp only [FilterEnv, if_neg hnc, hext, Option.map_some']
    rw [lookupA_filterFold vars e k []]
    rfl
  · intro hnc hext
    simp only [FilterEnv, if_neg hnc, hext]
  · intro t k hnc htpl hparse
    constructor
    · unfold ExtractEnvVars
      rw [if_neg (by simpa using hnc), if_neg (by simpa using htpl), hparse]
    · rw [mem_walkNode t [] k]
      simp
  · show walkNode (TNode.action ⟨[⟨[TArg.stringLit "K"]⟩, ⟨[TArg.identifier "env"]⟩]⟩) [] = []
    simp [walkNode, walkPipe, walkCommand]

theorem C8_filter_env_narrowing_witness :
    (FileConfig.mk "command" "" "op" [] 0 0 "" "f").Render = "command" ∧
    (FilterEnv (fun _ => none) (FileConfig.mk "command" "" "op" [] 0 0 "" "f")
        (some [("HOME", "h"), ("SECRET", "s")])).map (lookupA "SECRET") =
      some (if "SECRET" ∈ cmdEnvAllowlist ∧
          (lookupA "SECRET" [("HOME", "h"), ("SECRET", "s")]).isSome then
          lookupA "SECRET" [("HOME", "h"), ("SECRET", "s")] else none) ∧
    (FilterEnv (fun _ => none) (FileConfig.mk "command" "" "op" [] 0 0 "" "f")
        (some [("HOME", "h"), ("SECRET", "s")])).map (lookupA "HOME") =
      some (if "HOME" ∈ cmdEnvAllowlist ∧
          (lookupA "HOME" [("HOME", "h"), ("SECRET", "s")]).isSome then
          lookupA "HOME" [("HOME", "h"), ("SECRET", "s")] else none) ∧
    (FileConfig.mk "native" "t.tpl" "" [] 0 0 "" "f").Render ≠ "command" ∧
    ExtractEnvVars (fun _ => some (TNode.action ⟨[⟨[TArg.identifier "env",
        TArg.stringLit "TOKEN"]⟩]⟩)) (FileConfig.mk "native" "t.tpl" "" [] 0 0 "" "f") =
      some (walkNode (TNode.action ⟨[⟨[TArg.identifier "env", TArg.stringLit "TOKEN"]⟩]⟩) []) ∧
    ("TOKEN" ∈ walkNode (TNode.action ⟨[⟨[TArg.identifier "env", TArg.stringLit "TOKEN"]⟩]⟩) [] ↔
      nodeMentions (TNode.action ⟨[⟨[TArg.identifier "env", TArg.stringLit "TOKEN"]⟩]⟩) "TOKEN") :=
  ⟨rfl,
   (C8_filter_env_narrowing (fun _ => none) (FileConfig.mk "command" "" "op" [] 0 0 "" "f")
      [("HOME", "h"), ("SECRET", "s")]).1 rfl "SECRET",
   (C8_filter_env_narrowing (fun _ => none) (FileConfig.mk "command" "" "op" [] 0 0 "" "f")
      [("HOME", "h"), ("SECRET", "s")]).1 rfl "HOME",
   by decide,
   ((C8_filter_env_narrowing
      (fun _ => some (TNode.action ⟨[⟨[TArg.identifier "env", TArg.stringLit "TOKEN"]⟩]⟩))
      (FileConfig.mk "native" "t.tpl" "" [] 0 0 "" "f") []).2.2.2.2.1
      (TNode.action ⟨[⟨[TArg.identifier "env", TArg.stringLit "TOKEN"]⟩]⟩) "TOKEN"
      (by decide) (by decide) rfl).1,
   ((C8_filter_env_narrowing
      (fun _ => some (TNode.action ⟨[⟨[TArg.identifier "env", TArg.stringLit "TOKEN"]⟩]⟩))
      (FileConfig.mk "native" "t.tpl" "" [] 0 0 "" "f") []).2.2.2.2.1
      (TNode.action ⟨[⟨[TArg.identifier "env", TArg.stringLit "TOKEN"]⟩]⟩) "TOKEN"
      (by decide) (by decide) rfl).2⟩

theorem refreshInv_asyncRefresh (name : String) (rs : ResolverState) (h : RefreshInv rs) :
    RefreshInv (asyncRefresh name rs).1 := by
  unfold asyncRefresh
  by_cases hmem : name ∈ rs.refreshing
  · simpa [hmem] using h
  · simp only [hmem, if_false]
    intro n
    obtain ⟨hc, hm⟩ := h n
    by_cases hn : n = name
    · subst hn
      have hnin : n ∉ rs.inflight := fun hin => hmem (hm.mp hin)
      refine ⟨?_, ?_⟩
      · simp [List.count_cons, List.count_eq_zero.mpr hnin]
      · simp [mem_insertS]
    · refine ⟨?_, ?_⟩
      · simpa [List.count_cons, hn] using hc
      · simp only [List.mem_cons, hn, false_or, mem_insertS, hm]

theorem refreshInv_finishRefresh (name : String) (render : Option (List Nat))
    (encrypt : List Nat → Option (List Nat)) (keyStr : String) (ttl now : Int)
    (rs : ResolverState) (h : RefreshInv rs) :
    RefreshInv (finishRefresh name render encrypt keyStr ttl now rs) := by
  intro n
  obtain ⟨hc, hm⟩ := h n
  unfold finishRefresh
  by_cases hn : n = name
  · subst hn
    refine ⟨?_, ?_⟩
    · simp only [List.count_erase_self]
      omega
    · constructor
      · intro hin
        have : 0 < (rs.inflight.erase n).count n := List.count_pos_iff.mpr hin
        rw [List.count_erase_self] at this
        omega
      · intro hre
        exact absurd ((mem_eraseS n n rs.refreshing).mp hre).2 (by simp)
  · refine ⟨?_, ?_⟩
    · simpa [List.count_erase_of_ne hn] using hc
    · rw [List.mem_erase_of_ne hn, mem_eraseS]
      exact ⟨fun h₁ => ⟨hm.mp h₁, hn⟩, fun h₁ => hm.mpr h₁.1⟩

theorem refreshInv_initial (cache : List (String × Entry)) :
    RefreshInv ⟨cache, [], []⟩ := by
  intro n
  simp [RefreshInv, List.count_nil]

/-- C4: a `Resolve` hitting a stale (not fresh) cache entry returns the
decrypted stale bytes and hands the state to `asyncRefresh`, which spawns
a background refresh exactly when none is in flight for `name`; the
invariant that `refreshing` flags exactly the in-flight refreshes (hence
at most one per name) holds initially, is preserved by the call, and the
flag is dropped (with its goroutine) when a refresh completes. -/
theorem C4_stale_refresh_dedup (decrypt : List Nat → Option (List Nat))
    (render : Option (List Nat)) (encrypt : List Nat → Option (List Nat))
    (keyStr name : String) (ttl now : Int) (rs : ResolverState) (entry : Entry)
    (hhit : lookupA keyStr rs.cache = some entry)
    (hstale : entry.Stale now = true) :
    (Resolve decrypt render encrypt keyStr name ttl now rs).result = decrypt entry.ciphertext ∧
    ((Resolve decrypt render encrypt keyStr name ttl now rs).spawned = true ↔
      name ∉ rs.refreshing) ∧
    (Resolve decrypt render encrypt keyStr name ttl now rs).rs = (asyncRefresh name rs).1 ∧
    (RefreshInv rs → RefreshInv (Resolve decrypt render encrypt keyStr name ttl now rs).rs) ∧
    (∀ rs₂, RefreshInv rs₂ →
      RefreshInv (finishRefresh name render encrypt keyStr ttl now rs₂) ∧
      name ∉ (finishRefresh name render encrypt keyStr ttl now rs₂).refreshing) ∧
    RefreshInv ⟨rs.cache, [], []⟩ := by
  have hfresh : entry.Fresh now = false := by
    simp only [Entry.Stale, Bool.and_eq_true, decide_eq_true_eq] at hstale
    simp only [Entry.Fresh, decide_eq_false_iff_not, not_lt]
    exact hstale.1
  have hres : Resolve decrypt render encrypt keyStr name ttl now rs =
      ⟨decrypt entry.ciphertext, (asyncRefresh name rs).1, (asyncRefresh name rs).2⟩ := by
    unfold Resolve
    rw [hhit]
    simp [hfresh, hstale]
  refine ⟨by rw [hres], ?_, by rw [hres], ?_, ?_, refreshInv_initial rs.cache⟩
  · rw [hres]
    unfold asyncRefresh
    by_cases hmem : name ∈ rs.refreshing
    · simp [hmem]
    · simp [hmem]
  · intro hinv
    rw [hres]
    exact refreshInv_asyncRefresh name rs hinv
  · intro rs₂ hinv
    refine ⟨refreshInv_finishRefresh name render encrypt keyStr ttl now rs₂ hinv, ?_⟩
    intro hmem
    exact absurd ((mem_eraseS name name rs₂.refreshing).mp hmem).2 (by simp)

theorem C4_stale_refresh_dedup_witness :
    lookupA "k" ((⟨[("k", ⟨[1], 0, 5⟩)], [], []⟩ : ResolverState)).cache = some ⟨[1], 0, 5⟩ ∧
    (⟨[1], 0, 5⟩ : Entry).Stale 7 = true ∧
    (Resolve some none some "k" "f" 5 7 ⟨[("k", ⟨[1], 0, 5⟩)], [], []⟩).result = some [1] ∧
    ((Resolve some none some "k" "f" 5 7 ⟨[("k", ⟨[1], 0, 5⟩)], [], []⟩).spawned = true ↔
      "f" ∉ (⟨[("k", ⟨[1], 0, 5⟩)], [], []⟩ : ResolverState).refreshing) :=
  ⟨rfl, by decide,
   (C4_stale_refresh_dedup some none some "k" "f" 5 7 ⟨[("k", ⟨[1], 0, 5⟩)], [], []⟩
      ⟨[1], 0, 5⟩ rfl (by decide)).1,
   (C4_stale_refresh_dedup some none some "k" "f" 5 7 ⟨[("k", ⟨[1], 0, 5⟩)], [], []⟩
      ⟨[1], 0, 5⟩ rfl (by decide)).2.1⟩

theorem C6_swap_cipher_wipes_witness :
    (SecretCache.SwapCipher ⟨some, some, "new"⟩
      { entries := [("k", ⟨[7, 7], 0, 5⟩)], cipher := ⟨some, some, "old"⟩ }).Get "k" = none ∧
    lookupA "k" (SecretCache.zeroEntries
        { entries := [("k", ⟨[7, 7], 0, 5⟩)], cipher := ⟨some, some, "old"⟩ }).entries =
      some ⟨List.replicate 2 0, 0, 5⟩ :=
  ⟨(C6_swap_cipher_wipes
      { entries := [("k", ⟨[7, 7], 0, 5⟩)], cipher := ⟨some, some, "old"⟩ } ⟨some, some, "new"⟩).1 "k",
   (C6_swap_cipher_wipes
      { entries := [("k", ⟨[7, 7], 0, 5⟩)], cipher := ⟨some, some, "old"⟩ } ⟨some, some, "new"⟩).2.2.2.2
      "k" ⟨[7, 7], 0, 5⟩ rfl⟩

/-- C10: `Deactivate(dir, pid)` with `pid > 0` on an activation whose
session set also holds another session `q` removes only that session's
bookkeeping: the activation stays installed with `pid` gone from its
sessions, every other activation is untouched, the effective map is not
recomputed, the previously committed effective names are returned, the
on-change callback does not fire, and only `pid`'s `pidToDirs` entry
loses `dir` (the entry is dropped when that was its last dir). -/
theorem C10_deactivate_session_frame (parseTemplate : FileConfig → Option TNode)
    (dir : String) (pid : Int) (m : Manager) (act : Activation) (q : Int)
    (hact : lookupA dir m.activations = some act)
    (hpid : pid ∈ act.sessions) (hq : q ∈ act.sessions) (hqne : q ≠ pid) (hpos : pid > 0) :
    lookupA dir (m.Deactivate parseTemplate dir pid).m.activations =
      some { act with sessions := eraseS pid act.sessions } ∧
    (∀ d, d ≠ dir → lookupA d (m.Deactivate parseTemplate dir pid).m.activations =
      lookupA d m.activations) ∧
    (m.Deactivate parseTemplate dir pid).m.effective = m.effective ∧
    (m.Deactivate parseTemplate dir pid).ret = Except.ok (effectiveNames m.effective) ∧
    (m.Deactivate parseTemplate dir pid).onChangeFired = false ∧
    (∀ p, p ≠ pid → lookupA p (m.Deactivate parseTemplate dir pid).m.pidToDirs =
      lookupA p m.pidToDirs) ∧
    lookupA pid (m.Deactivate parseTemplate dir pid).m.pidToDirs =
      (if (eraseS dir ((lookupA pid m.pidToDirs).getD [])).isEmpty then none
       else some (eraseS dir ((lookupA pid m.pidToDirs).getD []))) := by
  have hmem : q ∈ eraseS pid act.sessions := (mem_eraseS pid q act.sessions).mpr ⟨hq, hqne⟩
  have hnonempty : (eraseS pid act.sessions).isEmpty = false := by
    cases hcase : eraseS pid act.sessions with
    | nil => rw [hcase] at hmem; exact absurd hmem (List.not_mem_nil q)
    | cons a l => rfl
  have hd : m.Deactivate parseTemplate dir pid =
      ⟨{ m with
          activations := insertA dir { act with sessions := eraseS pid act.sessions }
            m.activations,
          pidToDirs :=
            if (eraseS dir ((lookupA pid m.pidToDirs).getD [])).isEmpty then
              eraseA pid m.pidToDirs
            else insertA pid (eraseS dir ((lookupA pid m.pidToDirs).getD [])) m.pidToDirs },
        Except.ok (effectiveNames m.effective), false⟩ := by
    simp only [Manager.Deactivate, hact]
    rw [if_pos hpos]
    simp only [hnonempty, Bool.false_eq_true, if_false]
    split
    · rfl
    · rfl
  rw [hd]
  refine ⟨lookupA_insertA_self dir _ m.activations,
    fun d hd₂ => lookupA_insertA_ne d dir _ m.activations hd₂, rfl, rfl, rfl,
    fun p hp => ?_, ?_⟩
  · by_cases hdl : (eraseS dir ((lookupA pid m.pidToDirs).getD [])).isEmpty
    · rw [if_pos hdl]
      exact lookupA_eraseA p pid m.pidToDirs hp
    · rw [if_neg hdl]
      exact lookupA_insertA_ne p pid _ m.pidToDirs hp
  · by_cases hdl : (eraseS dir ((lookupA pid m.pidToDirs).getD [])).isEmpty
    · rw [if_pos hdl, if_pos hdl]
      exact lookupA_eraseA_self pid m.pidToDirs
    · rw [if_neg hdl, if_neg hdl]
      exact lookupA_insertA_self pid _ m.pidToDirs

theorem C10_deactivate_session_frame_witness :
    lookupA "/p" ((Manager.mk [] [("/p", ⟨"/p", [], none, [], [7, 9]⟩)]
        [("netrc", ⟨⟨"native", "t", "", [], 0, 0, "", "netrc"⟩, none⟩)]
        [(7, ["/p"]), (9, ["/p"])]).activations) = some ⟨"/p", [], none, [], [7, 9]⟩ ∧
    (7 : Int) ∈ ([7, 9] : List Int) ∧ (9 : Int) ∈ ([7, 9] : List Int) ∧
    lookupA "/p" ((Manager.mk [] [("/p", ⟨"/p", [], none, [], [7, 9]⟩)]
        [("netrc", ⟨⟨"native", "t", "", [], 0, 0, "", "netrc"⟩, none⟩)]
        [(7, ["/p"]), (9, ["/p"])]).Deactivate (fun _ => none) "/p" 7).m.activations =
      some ⟨"/p", [], none, [], eraseS 7 [7, 9]⟩ ∧
    ((Manager.mk [] [("/p", ⟨"/p", [], none, [], [7, 9]⟩)]
        [("netrc", ⟨⟨"native", "t", "", [], 0, 0, "", "netrc"⟩, none⟩)]
        [(7, ["/p"]), (9, ["/p"])]).Deactivate (fun _ => none) "/p" 7).onChangeFired = false :=
  ⟨rfl, by decide, by decide,
   (C10_deactivate_session_frame (fun _ => none) "/p" 7
      (Manager.mk [] [("/p", ⟨"/p", [], none, [], [7, 9]⟩)]
        [("netrc", ⟨⟨"native", "t", "", [], 0, 0, "", "netrc"⟩, none⟩)]
        [(7, ["/p"]), (9, ["/p"])])
      ⟨"/p", [], none, [], [7, 9]⟩ 9 rfl (by decide) (by decide) (by decide) (by decide)).1,
   (C10_deactivate_session_frame (fun _ => none) "/p" 7
      (Manager.mk [] [("/p", ⟨"/p", [], none, [], [7, 9]⟩)]
        [("netrc", ⟨⟨"native", "t", "", [], 0, 0, "", "netrc"⟩, none⟩)]
        [(7, ["/p"]), (9, ["/p"])])
      ⟨"/p", [], none, [], [7, 9]⟩ 9 rfl (by decide) (by decide) (by decide) (by decide)).2.2.2.2.1⟩

/-! ### Auto-deactivation loop lemmas -/

theorem autoDeactStep_self (pid : Int) (dir : String)
    (acc : Manager × List (String × Activation)) :
    autoDeactStep pid dir acc dir = acc := by
  unfold autoDeactStep
  rw [if_pos rfl]

theorem autoDeactStep_acts_ne (pid : Int) (dir a : String)
    (acc : Manager × List (String × Activation)) (d : String) (ha : d ≠ a) :
    lookupA a ((autoDeactStep pid dir acc d).1).activations =
      lookupA a acc.1.activations := by
  unfold autoDeactStep
  by_cases hd : d = dir
  · rw [if_pos hd]
  · rw [if_neg hd]
    split
    · rfl
    · split
      · exact lookupA_eraseA a d acc.1.activations (Ne.symm ha)
      · exact lookupA_insertA_ne a d _ acc.1.activations (Ne.symm ha)

theorem autoDeactStep_pidmem (pid : Int) (dir a : String)
    (acc : Manager × List (String × Activation)) (d : String) (ha : d ≠ a) :
    (a ∈ (lookupA pid ((autoDeactStep pid dir acc d).1).pidToDirs).getD []) ↔
      a ∈ (lookupA pid acc.1.pidToDirs).getD [] := by
  unfold autoDeactStep
  by_cases hd : d = dir
  · rw [if_pos hd]
  · rw [if_neg hd]
    split
    · simp only [lookupA_insertA_self, Option.getD_some]
      exact (mem_eraseS d a _).trans ⟨fun h => h.1, fun h => ⟨h, Ne.symm ha⟩⟩
    · split <;>
        · simp only [lookupA_insertA_self, Option.getD_some]
          exact (mem_eraseS d a _).trans ⟨fun h => h.1, fun h => ⟨h, Ne.symm ha⟩⟩

theorem autoDeactFold_acts_ne (pid : Int) (dir a : String) (l : List String)
    (hl : ∀ d ∈ l, d = dir ∨ d ≠ a) :
    ∀ acc, lookupA a ((l.foldl (autoDeactStep pid dir) acc).1).activations =
      lookupA a acc.1.activations := by
  induction l with
  | nil => intro acc; rfl
  | cons d rest ih =>
    intro acc
    rw [List.foldl_cons]
    rw [ih (fun x hx => hl x (List.mem_cons_of_mem d hx))]
    rcases hl d (List.mem_cons_self d rest) with hd | hd
    · rw [hd, autoDeactStep_self]
    · exact autoDeactStep_acts_ne pid dir a acc d hd

theorem autoDeactFold_pidmem (pid : Int) (dir a : String) (l : List String)
    (hl : ∀ d ∈ l, d = dir ∨ d ≠ a) :
    ∀ acc, ((a ∈ (lookupA pid ((l.foldl (autoDeactStep pid dir) acc).1).pidToDirs).getD []) ↔
      a ∈ (lookupA pid acc.1.pidToDirs).getD []) := by
  induction l with
  | nil => intro acc; exact Iff.rfl
  | cons d rest ih =>
    intro acc
    rw [List.foldl_cons]
    rw [ih (fun x hx => hl x (List.mem_cons_of_mem d hx))]
    rcases hl d (List.mem_cons_self d rest) with hd | hd
    · rw [hd, autoDeactStep_self]
    · exact autoDeactStep_pidmem pid dir a acc d hd

/-- For `pid > 0`, `activatePre` is the auto-deactivation fold started
from the freshly installed state. -/
theorem activatePre_eq (disc : List (String × List (String × FileConfig)))
    (dir : String) (env : Option Env) (pid : Int) (m : Manager) (hpos : pid > 0) :
    m.activatePre disc dir env pid =
      (sortedSet ((insertS dir ((lookupA pid m.pidToDirs).getD [])))).foldl
        (autoDeactStep pid dir)
        ({ m with
          activations := insertA dir (activationFor disc dir env pid m) m.activations,
          pidToDirs :=
            insertA pid (insertS dir ((lookupA pid m.pidToDirs).getD [])) m.pidToDirs }, []) := by
  have hinstall : m.activateInstall dir pid (activationFor disc dir env pid m) =
      { m with
        activations := insertA dir (activationFor disc dir env pid m) m.activations,
        pidToDirs :=
          insertA pid (insertS dir ((lookupA pid m.pidToDirs).getD [])) m.pidToDirs } := by
    unfold Manager.activateInstall
    rw [if_pos hpos]
  unfold Manager.activatePre
  rw [hinstall]
  unfold Manager.autoDeact
  rw [if_pos hpos]
  simp only [lookupA_insertA_self, Option.getD_some]

/-- After the pre-recompute phase of a tracked (`pid > 0`) activation of
`dir`, the fresh activation is installed at `dir` (the loop skips `dir`),
`pid` is in its session set, and `dir` is in `pidToDirs[pid]`. -/
theorem activatePre_self_facts (disc : List (String × List (String × FileConfig)))
    (dir : String) (env : Option Env) (pid : Int) (m : Manager) (hpos : pid > 0) :
    lookupA dir ((m.activatePre disc dir env pid).1).activations =
      some (activationFor disc dir env pid m) ∧
    pid ∈ (activationFor disc dir env pid m).sessions ∧
    dir ∈ (lookupA pid ((m.activatePre disc dir env pid).1).pidToDirs).getD [] := by
  have hpre := activatePre_eq disc dir env pid m hpos
  refine ⟨?_, ?_, ?_⟩
  · rw [hpre, autoDeactFold_acts_ne pid dir dir _ (fun d _ => Decidable.em (d = dir))]
    exact lookupA_insertA_self dir _ m.activations
  · have hs : (activationFor disc dir env pid m).sessions =
        insertS pid (match lookupA dir m.activations with
          | some o => o.sessions
          | none => []) := by
      unfold activationFor
      rw [if_pos hpos]
    rw [hs]
    exact (mem_insertS pid pid _).mpr (Or.inl rfl)
  · rw [hpre, autoDeactFold_pidmem pid dir dir _ (fun d _ => Decidable.em (d = dir))]
    simp only [lookupA_insertA_self, Option.getD_some, mem_insertS]
    exact Or.inl trivial

theorem Activate_recompute_ok (pt : FileConfig → Option TNode)
    (disc : List (String × List (String × FileConfig))) (dir : String) (env : Option Env)
    (pid : Int) (m : Manager) (eff : List (String × EffectiveFile))
    (hrec : ((m.activatePre disc dir env pid).1).recompute pt = Except.ok eff) :
    Manager.Activate pt disc dir env pid m =
      ⟨{ (m.activatePre disc dir env pid).1 with effective := eff },
        Except.ok (effectiveNames eff), true⟩ := by
  unfold Manager.Activate
  rw [hrec]

theorem Activate_recompute_error (pt : FileConfig → Option TNode)
    (disc : List (String × List (String × FileConfig))) (dir : String) (env : Option Env)
    (pid : Int) (m : Manager) (err : String)
    (hrec : ((m.activatePre disc dir env pid).1).recompute pt = Except.error err) :
    Manager.Activate pt disc dir env pid m =
      ⟨((m.activatePre disc dir env pid).1).activateRollback dir (lookupA dir m.activations)
          pid (m.activatePre disc dir env pid).2,
        Except.error err, false⟩ := by
  unfold Manager.Activate
  rw [hrec]

theorem Activate_ok_recompute (pt : FileConfig → Option TNode)
    (disc : List (String × List (String × FileConfig))) (dir : String) (env : Option Env)
    (pid : Int) (m : Manager)
    (hok : isOk (Manager.Activate pt disc dir env pid m).ret = true) :
    ∃ eff, ((m.activatePre disc dir env pid).1).recompute pt = Except.ok eff := by
  cases hrec : ((m.activatePre disc dir env pid).1).recompute pt with
  | error err =>
    rw [Activate_recompute_error pt disc dir env pid m err hrec] at hok
    exact absurd hok (by simp [isOk])
  | ok eff => exact ⟨eff, rfl⟩

/-- The auto-deactivation step at a dir `a` (other than the activating
`dir`) holding `act`: `pid` leaves `a`'s session set, and `a` is dropped
when that empties it. -/
theorem autoDeactStep_at_target (pid : Int) (dir a : String)
    (acc : Manager × List (String × Activation)) (act : Activation)
    (hne : a ≠ dir) (hacc : lookupA a acc.1.activations = some act) :
    lookupA a ((autoDeactStep pid dir acc a).1).activations =
      (if (eraseS pid act.sessions).isEmpty then none
       else some { act with sessions := eraseS pid act.sessions }) := by
  unfold autoDeactStep
  rw [if_neg hne]
  split
  · rename_i heq
    rw [hacc] at heq
    simp at heq
  · rename_i act₂ heq
    rw [hacc] at heq
    injection heq with heq
    rw [← heq]
    by_cases hemp : (eraseS pid act.sessions).isEmpty = true
    · rw [if_pos hemp, if_pos hemp]
      exact lookupA_eraseA_self a _
    · rw [if_neg hemp, if_neg hemp]
      exact lookupA_insertA_self a _ _

/-- C2: after a successful tracked `Activate(dirB, env, pid)` that
follows a successful `Activate(dirA, env, pid)` with `pid > 0` and
`dirA ≠ dirB`, `pid` is no longer in dirA's session set; and when `pid`
was dirA's only session, dirA has been dropped from the activations map
entirely. -/
theorem C2_auto_deactivation (pt : FileConfig → Option TNode)
    (discA discB : List (String × List (String × FileConfig)))
    (dirA dirB : String) (envA envB : Option Env) (pid : Int) (st0 : Manager)
    (hdne : dirA ≠ dirB) (hpos : pid > 0)
    (h1 : isOk (Manager.Activate pt discA dirA envA pid st0).ret = true)
    (h2 : isOk (Manager.Activate pt discB dirB envB pid
      (Manager.Activate pt discA dirA envA pid st0).m).ret = true) :
    (∀ act, lookupA dirA (Manager.Activate pt discB dirB envB pid
        (Manager.Activate pt discA dirA envA pid st0).m).m.activations = some act →
      pid ∉ act.sessions) ∧
    ((∀ s ∈ (activationFor discA dirA envA pid st0).sessions, s = pid) →
      lookupA dirA (Manager.Activate pt discB dirB envB pid
        (Manager.Activate pt discA dirA envA pid st0).m).m.activations = none) := by
  obtain ⟨eff₁, hrec₁⟩ := Activate_ok_recompute pt discA dirA envA pid st0 h1
  have hshape₁ := Activate_recompute_ok pt discA dirA envA pid st0 eff₁ hrec₁
  obtain ⟨hact₁, hsess₁, hmem₁⟩ := activatePre_self_facts discA dirA envA pid st0 hpos
  have hr1acts : lookupA dirA (Manager.Activate pt discA dirA envA pid st0).m.activations =
      some (activationFor discA dirA envA pid st0) := by
    rw [hshape₁]
    exact hact₁
  have hr1pid : dirA ∈
      (lookupA pid (Manager.Activate pt discA dirA envA pid st0).m.pidToDirs).getD [] := by
    rw [hshape₁]
    exact hmem₁
  obtain ⟨eff₂, hrec₂⟩ := Activate_ok_recompute pt discB dirB envB pid
    (Manager.Activate pt discA dirA envA pid st0).m h2
  have hshape₂ := Activate_recompute_ok pt discB dirB envB pid
    (Manager.Activate pt discA dirA envA pid st0).m eff₂ hrec₂
  have hpre₂ := activatePre_eq discB dirB envB pid
    (Manager.Activate pt discA dirA envA pid st0).m hpos
  generalize hst1 : (Manager.Activate pt discA dirA envA pid st0).m = st1 at hr1acts hr1pid hrec₂ hshape₂ hpre₂ ⊢
  have hfinal : lookupA dirA ((st1.activatePre discB dirB envB pid).1).activations =
      (if (eraseS pid (activationFor discA dirA envA pid st0).sessions).isEmpty then none
       else some { activationFor discA dirA envA pid st0 with
         sessions := eraseS pid (activationFor discA dirA envA pid st0).sessions }) := by
    rw [hpre₂]
    obtain ⟨l₁, l₂, hsplit⟩ := List.append_of_mem
      ((mem_sortedSet dirA _).mpr ((mem_insertS dirB dirA _).mpr (Or.inr hr1pid)))
    have hnodup := nodup_sortedSet (insertS dirB ((lookupA pid st1.pidToDirs).getD []))
    rw [hsplit] at hnodup
    obtain ⟨hnd₁, hnd₂, hdisj⟩ := List.nodup_append.mp hnodup
    have hA1 : dirA ∉ l₁ := fun hc => hdisj hc (List.mem_cons_self dirA l₂)
    have hA2 : dirA ∉ l₂ := (List.nodup_cons.mp hnd₂).1
    rw [hsplit, List.foldl_append, List.foldl_cons]
    have hacc₁ : lookupA dirA ((l₁.foldl (autoDeactStep pid dirB)
        ({ st1 with
          activations := insertA dirB (activationFor discB dirB envB pid st1) st1.activations,
          pidToDirs := insertA pid (insertS dirB ((lookupA pid st1.pidToDirs).getD []))
            st1.pidToDirs }, [])).1).activations =
        some (activationFor discA dirA envA pid st0) := by
      rw [autoDeactFold_acts_ne pid dirB dirA l₁
        (fun d hd => Or.inr (fun hc => hA1 (hc ▸ hd)))]
      show lookupA dirA (insertA dirB _ st1.activations) = _
      rw [lookupA_insertA_ne dirA dirB _ st1.activations hdne]
      exact hr1acts
    rw [autoDeactFold_acts_ne pid dirB dirA l₂
      (fun d hd => Or.inr (fun hc => hA2 (hc ▸ hd)))]
    exact autoDeactStep_at_target pid dirB dirA _
      (activationFor discA dirA envA pid st0) hdne hacc₁
  constructor
  · intro act hlook
    rw [hshape₂] at hlook
    have hlook₂ : lookupA dirA ((st1.activatePre discB dirB envB pid).1).activations =
        some act := hlook
    rw [hfinal] at hlook₂
    by_cases hemp : (eraseS pid (activationFor discA dirA envA pid st0).sessions).isEmpty = true
    · rw [if_pos hemp] at hlook₂
      exact absurd hlook₂ (by simp)
    · rw [if_neg hemp] at hlook₂
      injection hlook₂ with hlook₂
      rw [← hlook₂]
      intro hmem
      exact ((mem_eraseS pid pid _).mp hmem).2 rfl
  · intro honly
    have hnil : eraseS pid (activationFor discA dirA envA pid st0).sessions = [] := by
      unfold eraseS
      rw [List.filter_eq_nil_iff]
      intro a ha
      simp [honly a ha]
    have hemp : (eraseS pid (activationFor discA dirA envA pid st0).sessions).isEmpty = true := by
      rw [hnil]
      rfl
    rw [hshape₂]
    have hres : lookupA dirA ((st1.activatePre discB dirB envB pid).1).activations = none := by
      rw [hfinal, if_pos hemp]
    exact hres

theorem C2_auto_deactivation_witness :
    ("/a" : String) ≠ "/b" ∧ (5 : Int) > 0 ∧
    isOk (Manager.Activate (fun _ => none) [] "/a" none 5
      (NewManager (fun _ => none) [])).ret = true ∧
    isOk (Manager.Activate (fun _ => none) [] "/b" none 5
      (Manager.Activate (fun _ => none) [] "/a" none 5
        (NewManager (fun _ => none) [])).m).ret = true ∧
    lookupA "/a" (Manager.Activate (fun _ => none) [] "/b" none 5
      (Manager.Activate (fun _ => none) [] "/a" none 5
        (NewManager (fun _ => none) [])).m).m.activations = none :=
  ⟨by decide, by decide, by decide, by decide,
   (C2_auto_deactivation (fun _ => none) [] [] "/a" "/b" none none 5
      (NewManager (fun _ => none) []) (by decide) (by decide) (by decide) (by decide)).2
      (by decide)⟩

/-! ### Concrete conflict scenarios (C1, C9) -/

/-- The project file of directory `/a` in the conflict scenario. -/
def conflictFcA : FileConfig := ⟨"native", "a.tpl", "", [], 384, 0, "", "netrc"⟩

/-- The project file of directory `/b` in the conflict scenario; same
logical name as `/a`'s. -/
def conflictFcB : FileConfig := ⟨"native", "b.tpl", "", [], 384, 0, "", "netrc"⟩

/-- Manager state reached by three successful calls: `Activate("/a")`
(untracked) defining `netrc`, then `Activate("/c", pid 100)` and
`Activate("/c", pid 200)` with no project files, leaving `/c` with the
two sessions `{100, 200}`. -/
def conflictSt3 : Manager :=
  (Manager.Activate (fun _ => none) [] "/c" none 200
    (Manager.Activate (fun _ => none) [] "/c" none 100
      (Manager.Activate (fun _ => none) [("/a", [("netrc", conflictFcA)])] "/a" none 0
        (NewManager (fun _ => none) [])).m).m).m

/-- The conflicting call: session 100 activates `/b`, whose `netrc`
collides with `/a`'s. -/
def conflictRes : ActivateResult :=
  Manager.Activate (fun _ => none) [("/b", [("netrc", conflictFcB)])] "/b" none 100 conflictSt3

/-- C1 fails on the code: the conflicting `Activate` returns the conflict
error, but the state is NOT fully rolled back.  Before the call `/c`
held sessions `{100, 200}` and `pidToDirs[100] = {/c}`; the call removed
session 100 from `/c` (auto-deactivation) and, because `/c` kept session
200, the rollback block never restores it — afterwards `/c` holds only
`{200}` and `pidToDirs` has no entry for 100 at all.  Only activations
that were dropped outright (`removedActivations`) are re-installed by the
rollback in `Manager.Activate`. -/
theorem C1_conflict_rollback_incomplete :
    isOk (Manager.Activate (fun _ => none) [("/a", [("netrc", conflictFcA)])] "/a" none 0
      (NewManager (fun _ => none) [])).ret = true ∧
    isOk (Manager.Activate (fun _ => none) [] "/c" none 100
      (Manager.Activate (fun _ => none) [("/a", [("netrc", conflictFcA)])] "/a" none 0
        (NewManager (fun _ => none) [])).m).ret = true ∧
    isOk (Manager.Activate (fun _ => none) [] "/c" none 200
      (Manager.Activate (fun _ => none) [] "/c" none 100
        (Manager.Activate (fun _ => none) [("/a", [("netrc", conflictFcA)])] "/a" none 0
          (NewManager (fun _ => none) [])).m).m).ret = true ∧
    conflictRes.ret = Except.error
      ("conflict: file \"netrc\" is defined by both \"/a\" and \"/b\"") ∧
    (lookupA "/c" conflictSt3.activations).map Activation.sessions = some [200, 100] ∧
    (lookupA "/c" conflictRes.m.activations).map Activation.sessions = some [200] ∧
    lookupA 100 conflictSt3.pidToDirs = some ["/c"] ∧
    lookupA 100 conflictRes.m.pidToDirs = none ∧
    conflictRes.m ≠ conflictSt3 := by
  refine ⟨by decide, by decide, by decide, rfl, by decide, by decide, by decide, by decide, ?_⟩
  decide

/-- The single project file of the canonicalization scenario. -/
def canonFc : FileConfig := ⟨"native", "p.tpl", "", [], 384, 0, "", "netrc"⟩

/-- State after a successful untracked `Activate("/p")`, whose project
config defines `netrc`. -/
def canonSt1 : Manager :=
  (Manager.Activate (fun _ => none) [("/p", [("netrc", canonFc)])] "/p" none 0
    (NewManager (fun _ => none) [])).m

/-- C9 fails on the code: `Activate` keys the activations map by the raw
`dir` string (`filepath.Clean` is applied only inside `DiscoverLayers`),
so the spellings `/p` and `/p/.` of the same directory are two distinct
keys.  Re-activating `/p` succeeds (in-place update), but activating
`/p/.` — which discovers exactly the same project config — conflicts
with `/p` instead of updating it; and with no project files the two
spellings install two separate activations. -/
theorem C9_activation_key_not_canonicalized :
    isOk (Manager.Activate (fun _ => none) [("/p", [("netrc", canonFc)])] "/p" none 0
      canonSt1).ret = true ∧
    (Manager.Activate (fun _ => none) [("/p", [("netrc", canonFc)])] "/p/." none 0
        canonSt1).ret = Except.error
      ("conflict: file \"netrc\" is defined by both \"/p\" and \"/p/.\"") ∧
    keysA (Manager.Activate (fun _ => none) [("/p", [("netrc", canonFc)])] "/p/." none 0
      canonSt1).m.activations = ["/p"] ∧
    (lookupA "/q" (Manager.Activate (fun _ => none) [] "/q/." none 0
      (Manager.Activate (fun _ => none) [] "/q" none 0
        (NewManager (fun _ => none) [])).m).m.activations).isSome = true ∧
    (lookupA "/q/." (Manager.Activate (fun _ => none) [] "/q/." none 0
      (Manager.Activate (fun _ => none) [] "/q" none 0
        (NewManager (fun _ => none) [])).m).m.activations).isSome = true := by
  refine ⟨by decide, rfl, by decide, by decide, by decide⟩

end Slinky
